import Mathlib

/-!
Verification of the Rubik's-cube permutation cipher (`main.py`).

The cube is a structure of six square faces of 8-bit integer symbols.
Rotations (`rotate_row`, `rotate_column`, `rotate_level`) are translated from
the numpy slice assignments of the source into pointwise function updates;
`np.rot90` and `np.flip` become explicit index transformations (`Fin.rev`).
The cube size is written `N + 1`, covering exactly the positive sizes the
constructor accepts; this makes the boundary indices `0` and `Fin.last N` of
the numpy slices `[0]`, `[-1]`, `[:-1]`, `[1:]` directly expressible.
-/

namespace RubiksCube

/-- Wrap of a nonnegative integer into a signed 8-bit value, as performed by
numpy when storing into an `int8` array (two's-complement truncation). -/
def toInt8 (i : Nat) : Int :=
  if i % 256 < 128 then ((i % 256 : Nat) : Int) else ((i % 256 : Nat) : Int) - 256

/-- A face: a square grid of symbols (row index first, as in numpy). -/
abbrev Face (n : Nat) := Fin n → Fin n → Int

/-- The cube state: six faces, named as in the source.
`A` = Top, `B` = Left, `C` = Front, `D` = Right, `E` = Back, `F` = Bottom. -/
@[ext]
structure Cube (n : Nat) where
  A : Face n
  B : Face n
  C : Face n
  D : Face n
  E : Face n
  F : Face n

variable {N : Nat}

instance {n : Nat} : DecidableEq (Cube n) := fun c d =>
  decidable_of_iff
    (c.A = d.A ∧ c.B = d.B ∧ c.C = d.C ∧ c.D = d.D ∧ c.E = d.E ∧ c.F = d.F) (by
    constructor
    · rintro ⟨h1, h2, h3, h4, h5, h6⟩
      cases c; cases d
      simp_all
    · rintro rfl
      exact ⟨rfl, rfl, rfl, rfl, rfl, rfl⟩)

/-- One counterclockwise quarter turn of a square grid:
`np.rot90(m)[i][j] = m[j][n-1-i]`. -/
def rot90 {n : Nat} (f : Face n) : Face n := fun i j => f j i.rev

/-- `np.rot90(m, k)`: `k` counterclockwise quarter turns. -/
def rot90Iter {n : Nat} (k : Nat) (f : Face n) : Face n := rot90^[k] f

/-- One iteration of the loop body of `rotate_row`, `n in (1, 2, 3)`:
`tmpB = copy(B[-1]); B[-1] = E[-1]; E[-1] = D[-1]; D[-1] = C[-1]; C[-1] = tmpB`.
The temporary makes the four assignments simultaneous in the old state. -/
def rowOuterStep (c : Cube (N + 1)) : Cube (N + 1) :=
  { c with
    B := fun i j => if i = Fin.last N then c.E i j else c.B i j
    E := fun i j => if i = Fin.last N then c.D i j else c.E i j
    D := fun i j => if i = Fin.last N then c.C i j else c.D i j
    C := fun i j => if i = Fin.last N then c.B i j else c.C i j }

/-- One iteration of the loop body of `rotate_row`, `n in (4, 5, 6)`: the same
cycle on the slices `[:-1]` (all rows but the last). -/
def rowInnerStep (c : Cube (N + 1)) : Cube (N + 1) :=
  { c with
    B := fun i j => if i ≠ Fin.last N then c.E i j else c.B i j
    E := fun i j => if i ≠ Fin.last N then c.D i j else c.E i j
    D := fun i j => if i ≠ Fin.last N then c.C i j else c.D i j
    C := fun i j => if i ≠ Fin.last N then c.B i j else c.C i j }

/-- One iteration of the loop body of `rotate_column`, `n in (1, 2, 3)`:
`tmpA = copy(A[:,-1]); A[:,-1] = C[:,-1]; C[:,-1] = F[:,-1];
F[:,-1] = np.flip(E[:,0]); E[:,0] = np.flip(tmpA)`. -/
def colOuterStep (c : Cube (N + 1)) : Cube (N + 1) :=
  { c with
    A := fun i j => if j = Fin.last N then c.C i j else c.A i j
    C := fun i j => if j = Fin.last N then c.F i j else c.C i j
    F := fun i j => if j = Fin.last N then c.E i.rev 0 else c.F i j
    E := fun i j => if j = 0 then c.A i.rev (Fin.last N) else c.E i j }

/-- One iteration of the loop body of `rotate_column`, `n in (4, 5, 6)`:
`tmpA = copy(A[:,:-1]); A[:,:-1] = C[:,:-1]; C[:,:-1] = F[:,:-1];
F[:,:-1] = np.flip(E[:,1:]); E[:,1:] = np.flip(tmpA)`; the two-dimensional
`np.flip` reverses both axes, whence the double `Fin.rev`. -/
def colInnerStep (c : Cube (N + 1)) : Cube (N + 1) :=
  { c with
    A := fun i j => if j ≠ Fin.last N then c.C i j else c.A i j
    C := fun i j => if j ≠ Fin.last N then c.F i j else c.C i j
    F := fun i j => if j ≠ Fin.last N then c.E i.rev j.rev else c.F i j
    E := fun i j => if j ≠ 0 then c.A i.rev j.rev else c.E i j }

/-- One iteration of the loop body of `rotate_level`, `n in (1, 2, 3)`:
`tmpA = copy(A[0]); A[0] = D[:,-1]; D[:,-1] = np.flip(F[-1]); F[-1] = B[:,0];
B[:,0] = np.flip(tmpA)`. -/
def levelOuterStep (c : Cube (N + 1)) : Cube (N + 1) :=
  { c with
    A := fun i j => if i = 0 then c.D j (Fin.last N) else c.A i j
    D := fun i j => if j = Fin.last N then c.F (Fin.last N) i.rev else c.D i j
    F := fun i j => if i = Fin.last N then c.B j 0 else c.F i j
    B := fun i j => if j = 0 then c.A 0 i.rev else c.B i j }

/-- One iteration of the loop body of `rotate_level`, `n in (4, 5, 6)`:
`tmpA = copy(A[1:]); A[1:] = np.rot90(D[:,:-1]); D[:,:-1] = np.rot90(F[:-1]);
F[:-1] = np.rot90(B[:,1:]); B[:,1:] = np.rot90(tmpA)`; `np.rot90` on an
`r × c` slice yields `out[i][j] = in[j][c-1-i]`, which in whole-face
coordinates works out to `X j i.rev` with the guards below in each case. -/
def levelInnerStep (c : Cube (N + 1)) : Cube (N + 1) :=
  { c with
    A := fun i j => if i ≠ 0 then c.D j i.rev else c.A i j
    D := fun i j => if j ≠ Fin.last N then c.F j i.rev else c.D i j
    F := fun i j => if i ≠ Fin.last N then c.B j i.rev else c.F i j
    B := fun i j => if j ≠ 0 then c.A j i.rev else c.B i j }

/-- `rotate_row(n)`: outer case for `n in (1,2,3)` (cycle the last rows `n`
times, then rotate the Bottom cap by `4-n` counterclockwise quarter turns),
inner case for `n in (4,5,6)` (cycle the other rows `n-3` times, then rotate
the Top cap by `n-3` quarter turns), and no behaviour for every other `n`. -/
def rotate_row (n : Int) (c : Cube (N + 1)) : Cube (N + 1) :=
  if n = 1 ∨ n = 2 ∨ n = 3 then
    { rowOuterStep^[n.toNat] c with
        F := rot90Iter (4 - n).toNat (rowOuterStep^[n.toNat] c).F }
  else if n = 4 ∨ n = 5 ∨ n = 6 then
    { rowInnerStep^[(n - 3).toNat] c with
        A := rot90Iter (n - 3).toNat (rowInnerStep^[(n - 3).toNat] c).A }
  else c

/-- `rotate_column(n)`: as `rotate_row`, with ring `A → E → F → C → A` and
caps `D` (outer) and `B` (inner). -/
def rotate_column (n : Int) (c : Cube (N + 1)) : Cube (N + 1) :=
  if n = 1 ∨ n = 2 ∨ n = 3 then
    { colOuterStep^[n.toNat] c with
        D := rot90Iter (4 - n).toNat (colOuterStep^[n.toNat] c).D }
  else if n = 4 ∨ n = 5 ∨ n = 6 then
    { colInnerStep^[(n - 3).toNat] c with
        B := rot90Iter (n - 3).toNat (colInnerStep^[(n - 3).toNat] c).B }
  else c

/-- `rotate_level(n)`: as `rotate_row`, with ring `A → B → F → D → A` and
caps `E` (outer) and `C` (inner). -/
def rotate_level (n : Int) (c : Cube (N + 1)) : Cube (N + 1) :=
  if n = 1 ∨ n = 2 ∨ n = 3 then
    { levelOuterStep^[n.toNat] c with
        E := rot90Iter (4 - n).toNat (levelOuterStep^[n.toNat] c).E }
  else if n = 4 ∨ n = 5 ∨ n = 6 then
    { levelInnerStep^[(n - 3).toNat] c with
        C := rot90Iter (n - 3).toNat (levelInnerStep^[(n - 3).toNat] c).C }
  else c

/-- `RubikCube(size)`: all six faces zero-filled (`np.zeros`). -/
def mkRubikCube (n : Nat) : Cube n :=
  { A := fun _ _ => 0
    B := fun _ _ => 0
    C := fun _ _ => 0
    D := fun _ _ => 0
    E := fun _ _ => 0
    F := fun _ _ => 0 }

/-- `init_arange`: write the running counter `i` into every cell, faces in the
order `A, B, C, D, E, F`, each face row-major.  Every cell is overwritten, so
the result does not depend on the previous contents; the `int8` store applies
`toInt8`. -/
def init_arange (n : Nat) : Cube n :=
  { A := fun y x => toInt8 (0 * n ^ 2 + y.val * n + x.val)
    B := fun y x => toInt8 (1 * n ^ 2 + y.val * n + x.val)
    C := fun y x => toInt8 (2 * n ^ 2 + y.val * n + x.val)
    D := fun y x => toInt8 (3 * n ^ 2 + y.val * n + x.val)
    E := fun y x => toInt8 (4 * n ^ 2 + y.val * n + x.val)
    F := fun y x => toInt8 (5 * n ^ 2 + y.val * n + x.val) }

/-- The face selected by scan position `k` in the order `A,B,C,D,E,F` used by
`self.faces` and `init_arange`. -/
def cellAt {n : Nat} (c : Cube n) (k : Fin 6) : Face n :=
  match k with
  | ⟨0, _⟩ => c.A
  | ⟨1, _⟩ => c.B
  | ⟨2, _⟩ => c.C
  | ⟨3, _⟩ => c.D
  | ⟨4, _⟩ => c.E
  | ⟨5, _⟩ => c.F

/-- The error the specification prescribes for an out-of-range move parameter. -/
inductive SpecErr where
  | invalidMove
deriving DecidableEq

/-- Observable behaviour of a call to `rotate_row`: the source method contains
no `raise` statement on any path, so every call returns normally with the
(possibly updated) state. -/
def rowCall (n : Int) (c : Cube (N + 1)) : Except SpecErr (Cube (N + 1)) :=
  Except.ok (rotate_row n c)

/-- Observable behaviour of a call to `rotate_column` (no raise path). -/
def colCall (n : Int) (c : Cube (N + 1)) : Except SpecErr (Cube (N + 1)) :=
  Except.ok (rotate_column n c)

/-- Observable behaviour of a call to `rotate_level` (no raise path). -/
def levelCall (n : Int) (c : Cube (N + 1)) : Except SpecErr (Cube (N + 1)) :=
  Except.ok (rotate_level n c)

/-- Modelled from the spec: the spec demands that `n` outside `[1, 2N]` raise
`InvalidMove` with the state unchanged, and that in-range `n` perform the
rotation.  (No such error exists in the source.) -/
def specRowCall (n : Int) (c : Cube (N + 1)) : Except SpecErr (Cube (N + 1)) :=
  if 1 ≤ n ∧ n ≤ 2 * ((N : Int) + 1) then Except.ok (rotate_row n c)
  else Except.error SpecErr.invalidMove

/-- Modelled from the spec: `rotate_column` with the spec's error contract. -/
def specColCall (n : Int) (c : Cube (N + 1)) : Except SpecErr (Cube (N + 1)) :=
  if 1 ≤ n ∧ n ≤ 2 * ((N : Int) + 1) then Except.ok (rotate_column n c)
  else Except.error SpecErr.invalidMove

/-- Modelled from the spec: `rotate_level` with the spec's error contract. -/
def specLevelCall (n : Int) (c : Cube (N + 1)) : Except SpecErr (Cube (N + 1)) :=
  if 1 ≤ n ∧ n ≤ 2 * ((N : Int) + 1) then Except.ok (rotate_level n c)
  else Except.error SpecErr.invalidMove

/-- Python exceptions observable from `encrypt`. -/
inductive PyErr where
  | indexError
  | valueError (literal : List Char)
deriving DecidableEq

instance {ε α : Type} [DecidableEq ε] [DecidableEq α] : DecidableEq (Except ε α)
  | Except.ok a, Except.ok b =>
      decidable_of_iff (a = b) (by
        constructor
        · rintro rfl; rfl
        · intro hh; injection hh)
  | Except.error e, Except.error f =>
      decidable_of_iff (e = f) (by
        constructor
        · rintro rfl; rfl
        · intro hh; injection hh)
  | Except.ok _, Except.error _ => isFalse (by intro hh; injection hh)
  | Except.error _, Except.ok _ => isFalse (by intro hh; injection hh)

/-- The Unicode decimal-digit decades (general category `Nd`): each listed
base `b` starts a run `b .. b+9` of digit characters with decimal values
`0 .. 9`, `0x30` being the ASCII digits.  Python's `int()` accepts a
one-character string exactly when the character lies in one of these runs
(Unicode 14.0 table as shipped with CPython 3.11, cross-checked against
`unicodedata`: every category-`Nd` code point lies in exactly one decade
with the stated value, and `int()` rejects everything else, including
non-decimal numerics such as superscripts and fractions). -/
def pyDigitBases : List Nat :=
  [0x30, 0x660, 0x6f0, 0x7c0, 0x966, 0x9e6, 0xa66, 0xae6, 0xb66, 0xbe6,
   0xc66, 0xce6, 0xd66, 0xde6, 0xe50, 0xed0, 0xf20, 0x1040, 0x1090, 0x17e0,
   0x1810, 0x1946, 0x19d0, 0x1a80, 0x1a90, 0x1b50, 0x1bb0, 0x1c40, 0x1c50,
   0xa620, 0xa8d0, 0xa900, 0xa9d0, 0xa9f0, 0xaa50, 0xabf0, 0xff10, 0x104a0,
   0x10d30, 0x11066, 0x110f0, 0x11136, 0x111d0, 0x112f0, 0x11450, 0x114d0,
   0x11650, 0x116c0, 0x11730, 0x118e0, 0x11950, 0x11c50, 0x11d50, 0x11da0,
   0x16a60, 0x16ac0, 0x16b50, 0x1d7ce, 0x1d7d8, 0x1d7e2, 0x1d7ec, 0x1d7f6,
   0x1e140, 0x1e2f0, 0x1e950, 0x1fbf0]

/-- The decimal value Python assigns to a single character, if any: `c - b`
when `c` lies in the digit decade starting at `b`, `none` otherwise. -/
def pyDigit (ch : Char) : Option Nat :=
  (pyDigitBases.find? fun b => decide (b ≤ ch.toNat ∧ ch.toNat < b + 10)).map
    (fun b => ch.toNat - b)

/-- Python `int(move[1])` on the one-character string at index 1: a Unicode
decimal digit (ASCII or not) parses to its decimal value, anything else
raises `ValueError` naming the literal. -/
def pyIntChar (ch : Char) : Except PyErr Int :=
  match pyDigit ch with
  | some v => Except.ok ((v : Nat) : Int)
  | none => Except.error (PyErr.valueError [ch])

/-- One token of the key (`move` in the source): `move[0]` selects the family,
`int(move[1])` the parameter (characters beyond index 1 are never read);
letters other than `R`, `C`, `L` are silently skipped; an empty token or a
one-character token raises `IndexError` at the subscript. -/
def applyToken (tok : List Char) (c : Cube (N + 1)) :
    Except PyErr (Cube (N + 1)) :=
  match tok with
  | [] => Except.error PyErr.indexError
  | ch :: rest =>
    if ch = 'R' then
      match rest with
      | [] => Except.error PyErr.indexError
      | d :: _ => (pyIntChar d).map (fun n => rotate_row n c)
    else if ch = 'C' then
      match rest with
      | [] => Except.error PyErr.indexError
      | d :: _ => (pyIntChar d).map (fun n => rotate_column n c)
    else if ch = 'L' then
      match rest with
      | [] => Except.error PyErr.indexError
      | d :: _ => (pyIntChar d).map (fun n => rotate_level n c)
    else Except.ok c

/-- `key.split('-')` on a Python string, modelled on its character list:
every `-` separates, so `n` dashes give `n+1` (possibly empty) tokens. -/
def splitDash (s : List Char) : List (List Char) :=
  match s with
  | [] => [[]]
  | ch :: rest =>
    if ch = '-' then [] :: splitDash rest
    else
      match splitDash rest with
      | [] => [[ch]]
      | t :: ts => (ch :: t) :: ts

/-- The loop of `encrypt`: apply tokens left to right; the first exception
aborts the loop, leaving the state reached so far (earlier moves stay
applied, the offending token applies no move). -/
def encryptTokens (toks : List (List Char)) (c : Cube (N + 1)) :
    Cube (N + 1) × Option PyErr :=
  match toks with
  | [] => (c, none)
  | t :: ts =>
    match applyToken t c with
    | Except.ok c2 => encryptTokens ts c2
    | Except.error e => (c, some e)

/-- `encrypt(key)`: split the key on `-` and apply each move in order. -/
def encrypt (key : List Char) (c : Cube (N + 1)) : Cube (N + 1) × Option PyErr :=
  encryptTokens (splitDash key) c

/-- The multiset of the `n²` symbols of a face. -/
def faceMS {n : Nat} (f : Face n) : Multiset Int :=
  ∑ i : Fin n, ∑ j : Fin n, ({f i j} : Multiset Int)

/-- The multiset of all `6n²` symbols of the cube. -/
def cubeMS {n : Nat} (c : Cube n) : Multiset Int :=
  faceMS c.A + faceMS c.B + faceMS c.C + faceMS c.D + faceMS c.E + faceMS c.F

/-- The multiset of row `a` of a face. -/
def sliceAt {n : Nat} (f : Face n) (a : Fin n) : Multiset Int :=
  ∑ j : Fin n, ({f a j} : Multiset Int)

/-- The multiset of all rows of a face except row `a`. -/
def sliceRest {n : Nat} (f : Face n) (a : Fin n) : Multiset Int :=
  ∑ i in Finset.univ.erase a, ∑ j : Fin n, ({f i j} : Multiset Int)

/-- The multiset of column `a` of a face. -/
def colAt {n : Nat} (f : Face n) (a : Fin n) : Multiset Int :=
  ∑ i : Fin n, ({f i a} : Multiset Int)

/-- The multiset of all columns of a face except column `a`. -/
def colRest {n : Nat} (f : Face n) (a : Fin n) : Multiset Int :=
  ∑ j in Finset.univ.erase a, ∑ i : Fin n, ({f i j} : Multiset Int)

theorem rotate_row_noop (n : Int) (c : Cube (N + 1)) (h : n < 1 ∨ 6 < n) :
    rotate_row n c = c := by
  unfold rotate_row
  rw [if_neg (by omega), if_neg (by omega)]

theorem rotate_column_noop (n : Int) (c : Cube (N + 1)) (h : n < 1 ∨ 6 < n) :
    rotate_column n c = c := by
  unfold rotate_column
  rw [if_neg (by omega), if_neg (by omega)]

theorem rotate_level_noop (n : Int) (c : Cube (N + 1)) (h : n < 1 ∨ 6 < n) :
    rotate_level n c = c := by
  unfold rotate_level
  rw [if_neg (by omega), if_neg (by omega)]

theorem pyDigit_ascii (d : Char) (hd : '0' ≤ d ∧ d ≤ '9') :
    pyDigit d = some (d.toNat - 48) := by
  have hn : 48 ≤ d.toNat ∧ d.toNat < 58 := ⟨hd.1, Nat.lt_succ_of_le hd.2⟩
  have hfind : List.find? (fun b => decide (b ≤ d.toNat ∧ d.toNat < b + 10))
      pyDigitBases = some 48 := by
    unfold pyDigitBases
    rw [List.find?_cons,
      show decide (48 ≤ d.toNat ∧ d.toNat < 48 + 10) = true from decide_eq_true hn]
  unfold pyDigit
  rw [hfind]
  rfl

theorem pyIntChar_ascii (d : Char) (hd : '0' ≤ d ∧ d ≤ '9') :
    pyIntChar d = Except.ok ((d.toNat : Int) - 48) := by
  unfold pyIntChar
  rw [pyDigit_ascii d hd]
  exact congrArg Except.ok (Nat.cast_sub hd.1)

theorem pyIntChar_of_none (d : Char) (hd : pyDigit d = none) :
    pyIntChar d = Except.error (PyErr.valueError [d]) := by
  simp only [pyIntChar, hd]

theorem pyIntChar_of_some (d : Char) (v : Nat) (hv : pyDigit d = some v) :
    pyIntChar d = Except.ok ((v : Nat) : Int) := by
  simp only [pyIntChar, hv]

@[simp] theorem fin_last_zero : Fin.last 0 = 0 := rfl

@[simp] theorem rev_eq_last_iff {i : Fin (N + 1)} :
    i.rev = Fin.last N ↔ i = 0 := by
  rw [← Fin.rev_zero, Fin.rev_inj]

@[simp] theorem rev_eq_zero_iff {i : Fin (N + 1)} :
    i.rev = 0 ↔ i = Fin.last N := by
  rw [← Fin.rev_last, Fin.rev_inj]

theorem rot90Iter_add {n : Nat} (a b : Nat) (f : Face n) :
    rot90Iter a (rot90Iter b f) = rot90Iter (a + b) f :=
  (Function.iterate_add_apply _ _ _ _).symm

theorem rot90_four {n : Nat} (f : Face n) : rot90Iter 4 f = f := by
  show rot90 (rot90 (rot90 (rot90 f))) = f
  funext i j
  simp [rot90]

theorem rot90_twelve {n : Nat} (f : Face n) : rot90Iter 12 f = f := by
  rw [show (12 : Nat) = 4 + 8 from rfl, ← rot90Iter_add, rot90_four,
    show (8 : Nat) = 4 + 4 from rfl, ← rot90Iter_add, rot90_four, rot90_four]

theorem setF_collapse {n : Nat} (x : Cube n) (g h : Face n) :
    ({ ({ x with F := g }) with F := h } : Cube n) = { x with F := h } := rfl

theorem setA_collapse {n : Nat} (x : Cube n) (g h : Face n) :
    ({ ({ x with A := g }) with A := h } : Cube n) = { x with A := h } := rfl

theorem rowOuterStep_iter_F (k : Nat) (c : Cube (N + 1)) :
    (rowOuterStep^[k] c).F = c.F := by
  induction k generalizing c with
  | zero => rfl
  | succ k ih =>
      rw [Function.iterate_succ_apply]
      exact ih _

theorem rowOuterStep_iter_setF (k : Nat) (c : Cube (N + 1)) (g : Face (N + 1)) :
    rowOuterStep^[k] { c with F := g } = { rowOuterStep^[k] c with F := g } := by
  induction k generalizing c with
  | zero => rfl
  | succ k ih =>
      rw [Function.iterate_succ_apply, Function.iterate_succ_apply,
        show rowOuterStep { c with F := g } = { rowOuterStep c with F := g } from rfl]
      exact ih _

theorem rowOuterStep_four (c : Cube (N + 1)) : rowOuterStep^[4] c = c := by
  show rowOuterStep (rowOuterStep (rowOuterStep (rowOuterStep c))) = c
  refine Cube.ext ?_ ?_ ?_ ?_ ?_ ?_ <;> funext i j <;>
    by_cases h : i = Fin.last N <;> simp [rowOuterStep, h]

theorem rotate_row_eq_outer (n : Int) (hn : n = 1 ∨ n = 2 ∨ n = 3)
    (c : Cube (N + 1)) :
    rotate_row n c =
      { rowOuterStep^[n.toNat] c with F := rot90Iter (4 - n).toNat c.F } := by
  unfold rotate_row
  rw [if_pos hn, rowOuterStep_iter_F]

theorem rotate_row_outer_pair (n m : Int) (hn : n = 1 ∨ n = 2 ∨ n = 3)
    (hm : m = 1 ∨ m = 2 ∨ m = 3) (hnm : n + m = 4) (c : Cube (N + 1)) :
    rotate_row m (rotate_row n c) = c := by
  rw [rotate_row_eq_outer n hn, rotate_row_eq_outer m hm, rowOuterStep_iter_setF,
    show ({ rowOuterStep^[n.toNat] c with F := rot90Iter (4 - n).toNat c.F } :
      Cube (N + 1)).F = rot90Iter (4 - n).toNat c.F from rfl, setF_collapse]
  have h1 : rowOuterStep^[m.toNat] (rowOuterStep^[n.toNat] c) = c := by
    rw [← Function.iterate_add_apply, show m.toNat + n.toNat = 4 by omega]
    exact rowOuterStep_four c
  have h2 : rot90Iter (4 - m).toNat (rot90Iter (4 - n).toNat c.F) = c.F := by
    rw [rot90Iter_add, show (4 - m).toNat + (4 - n).toNat = 4 by omega]
    exact rot90_four _
  rw [h1, h2]

theorem rowInnerStep_iter_A (k : Nat) (c : Cube (N + 1)) :
    (rowInnerStep^[k] c).A = c.A := by
  induction k generalizing c with
  | zero => rfl
  | succ k ih =>
      rw [Function.iterate_succ_apply]
      exact ih _

theorem rowInnerStep_iter_setA (k : Nat) (c : Cube (N + 1)) (g : Face (N + 1)) :
    rowInnerStep^[k] { c with A := g } = { rowInnerStep^[k] c with A := g } := by
  induction k generalizing c with
  | zero => rfl
  | succ k ih =>
      rw [Function.iterate_succ_apply, Function.iterate_succ_apply,
        show rowInnerStep { c with A := g } = { rowInnerStep c with A := g } from rfl]
      exact ih _

theorem rowInnerStep_four (c : Cube (N + 1)) : rowInnerStep^[4] c = c := by
  show rowInnerStep (rowInnerStep (rowInnerStep (rowInnerStep c))) = c
  refine Cube.ext ?_ ?_ ?_ ?_ ?_ ?_ <;> funext i j <;>
    by_cases h : i = Fin.last N <;> simp [rowInnerStep, h]

theorem rotate_row_eq_inner (n : Int) (hn : n = 4 ∨ n = 5 ∨ n = 6)
    (c : Cube (N + 1)) :
    rotate_row n c =
      { rowInnerStep^[(n - 3).toNat] c with A := rot90Iter (n - 3).toNat c.A } := by
  unfold rotate_row
  rw [if_neg (by omega), if_pos hn, rowInnerStep_iter_A]

theorem rotate_row_inner_pair (n m : Int) (hn : n = 4 ∨ n = 5 ∨ n = 6)
    (hm : m = 4 ∨ m = 5 ∨ m = 6) (hnm : n + m = 10) (c : Cube (N + 1)) :
    rotate_row m (rotate_row n c) = c := by
  rw [rotate_row_eq_inner n hn, rotate_row_eq_inner m hm, rowInnerStep_iter_setA,
    show ({ rowInnerStep^[(n - 3).toNat] c with A := rot90Iter (n - 3).toNat c.A } :
      Cube (N + 1)).A = rot90Iter (n - 3).toNat c.A from rfl, setA_collapse]
  have h1 : rowInnerStep^[(m - 3).toNat] (rowInnerStep^[(n - 3).toNat] c) = c := by
    rw [← Function.iterate_add_apply, show (m - 3).toNat + (n - 3).toNat = 4 by omega]
    exact rowInnerStep_four c
  have h2 : rot90Iter (m - 3).toNat (rot90Iter (n - 3).toNat c.A) = c.A := by
    rw [rot90Iter_add, show (m - 3).toNat + (n - 3).toNat = 4 by omega]
    exact rot90_four _
  rw [h1, h2]

theorem rotate_row_quad (c : Cube (N + 1)) :
    rotate_row 1 (rotate_row 1 (rotate_row 1 (rotate_row 1 c))) = c := by
  rw [show rotate_row 1 (rotate_row 1 (rotate_row 1 (rotate_row 1 c))) =
        { rowOuterStep^[4] c with F := rot90Iter 12 c.F } from rfl,
    rowOuterStep_four c, rot90_twelve]

theorem setD_collapse {n : Nat} (x : Cube n) (g h : Face n) :
    ({ ({ x with D := g }) with D := h } : Cube n) = { x with D := h } := rfl

theorem setB_collapse {n : Nat} (x : Cube n) (g h : Face n) :
    ({ ({ x with B := g }) with B := h } : Cube n) = { x with B := h } := rfl

theorem setE_collapse {n : Nat} (x : Cube n) (g h : Face n) :
    ({ ({ x with E := g }) with E := h } : Cube n) = { x with E := h } := rfl

theorem setC_collapse {n : Nat} (x : Cube n) (g h : Face n) :
    ({ ({ x with C := g }) with C := h } : Cube n) = { x with C := h } := rfl

theorem colOuterStep_iter_D (k : Nat) (c : Cube (N + 1)) :
    (colOuterStep^[k] c).D = c.D := by
  induction k generalizing c with
  | zero => rfl
  | succ k ih =>
      rw [Function.iterate_succ_apply]
      exact ih _

theorem colOuterStep_iter_setD (k : Nat) (c : Cube (N + 1)) (g : Face (N + 1)) :
    colOuterStep^[k] { c with D := g } = { colOuterStep^[k] c with D := g } := by
  induction k generalizing c with
  | zero => rfl
  | succ k ih =>
      rw [Function.iterate_succ_apply, Function.iterate_succ_apply,
        show colOuterStep { c with D := g } = { colOuterStep c with D := g } from rfl]
      exact ih _

theorem colOuterStep_four (c : Cube (N + 1)) : colOuterStep^[4] c = c := by
  show colOuterStep (colOuterStep (colOuterStep (colOuterStep c))) = c
  refine Cube.ext ?_ rfl ?_ rfl ?_ ?_
  · funext i j
    by_cases h : j = Fin.last N <;> simp [colOuterStep, h]
  · funext i j
    by_cases h : j = Fin.last N <;> simp [colOuterStep, h]
  · funext i j
    by_cases h : j = (0 : Fin (N + 1)) <;> simp [colOuterStep, h]
  · funext i j
    by_cases h : j = Fin.last N <;> simp [colOuterStep, h]

theorem rotate_column_eq_outer (n : Int) (hn : n = 1 ∨ n = 2 ∨ n = 3)
    (c : Cube (N + 1)) :
    rotate_column n c =
      { colOuterStep^[n.toNat] c with D := rot90Iter (4 - n).toNat c.D } := by
  unfold rotate_column
  rw [if_pos hn, colOuterStep_iter_D]

theorem rotate_column_outer_pair (n m : Int) (hn : n = 1 ∨ n = 2 ∨ n = 3)
    (hm : m = 1 ∨ m = 2 ∨ m = 3) (hnm : n + m = 4) (c : Cube (N + 1)) :
    rotate_column m (rotate_column n c) = c := by
  rw [rotate_column_eq_outer n hn, rotate_column_eq_outer m hm, colOuterStep_iter_setD,
    show ({ colOuterStep^[n.toNat] c with D := rot90Iter (4 - n).toNat c.D } :
      Cube (N + 1)).D = rot90Iter (4 - n).toNat c.D from rfl, setD_collapse]
  have h1 : colOuterStep^[m.toNat] (colOuterStep^[n.toNat] c) = c := by
    rw [← Function.iterate_add_apply, show m.toNat + n.toNat = 4 by omega]
    exact colOuterStep_four c
  have h2 : rot90Iter (4 - m).toNat (rot90Iter (4 - n).toNat c.D) = c.D := by
    rw [rot90Iter_add, show (4 - m).toNat + (4 - n).toNat = 4 by omega]
    exact rot90_four _
  rw [h1, h2]

theorem colInnerStep_iter_B (k : Nat) (c : Cube (N + 1)) :
    (colInnerStep^[k] c).B = c.B := by
  induction k generalizing c with
  | zero => rfl
  | succ k ih =>
      rw [Function.iterate_succ_apply]
      exact ih _

theorem colInnerStep_iter_setB (k : Nat) (c : Cube (N + 1)) (g : Face (N + 1)) :
    colInnerStep^[k] { c with B := g } = { colInnerStep^[k] c with B := g } := by
  induction k generalizing c with
  | zero => rfl
  | succ k ih =>
      rw [Function.iterate_succ_apply, Function.iterate_succ_apply,
        show colInnerStep { c with B := g } = { colInnerStep c with B := g } from rfl]
      exact ih _

theorem colInnerStep_four (c : Cube (N + 1)) : colInnerStep^[4] c = c := by
  show colInnerStep (colInnerStep (colInnerStep (colInnerStep c))) = c
  refine Cube.ext ?_ rfl ?_ rfl ?_ ?_
  · funext i j
    by_cases h : j = Fin.last N <;> simp [colInnerStep, h]
  · funext i j
    by_cases h : j = Fin.last N <;> simp [colInnerStep, h]
  · funext i j
    by_cases h : j = (0 : Fin (N + 1)) <;> simp [colInnerStep, h]
  · funext i j
    by_cases h : j = Fin.last N <;> simp [colInnerStep, h]

theorem rotate_column_eq_inner (n : Int) (hn : n = 4 ∨ n = 5 ∨ n = 6)
    (c : Cube (N + 1)) :
    rotate_column n c =
      { colInnerStep^[(n - 3).toNat] c with B := rot90Iter (n - 3).toNat c.B } := by
  unfold rotate_column
  rw [if_neg (by omega), if_pos hn, colInnerStep_iter_B]

theorem rotate_column_inner_pair (n m : Int) (hn : n = 4 ∨ n = 5 ∨ n = 6)
    (hm : m = 4 ∨ m = 5 ∨ m = 6) (hnm : n + m = 10) (c : Cube (N + 1)) :
    rotate_column m (rotate_column n c) = c := by
  rw [rotate_column_eq_inner n hn, rotate_column_eq_inner m hm, colInnerStep_iter_setB,
    show ({ colInnerStep^[(n - 3).toNat] c with B := rot90Iter (n - 3).toNat c.B } :
      Cube (N + 1)).B = rot90Iter (n - 3).toNat c.B from rfl, setB_collapse]
  have h1 : colInnerStep^[(m - 3).toNat] (colInnerStep^[(n - 3).toNat] c) = c := by
    rw [← Function.iterate_add_apply, show (m - 3).toNat + (n - 3).toNat = 4 by omega]
    exact colInnerStep_four c
  have h2 : rot90Iter (m - 3).toNat (rot90Iter (n - 3).toNat c.B) = c.B := by
    rw [rot90Iter_add, show (m - 3).toNat + (n - 3).toNat = 4 by omega]
    exact rot90_four _
  rw [h1, h2]

theorem rotate_column_quad (c : Cube (N + 1)) :
    rotate_column 1 (rotate_column 1 (rotate_column 1 (rotate_column 1 c))) = c := by
  rw [show rotate_column 1 (rotate_column 1 (rotate_column 1 (rotate_column 1 c))) =
        { colOuterStep^[4] c with D := rot90Iter 12 c.D } from rfl,
    colOuterStep_four c, rot90_twelve]

theorem levelOuterStep_iter_E (k : Nat) (c : Cube (N + 1)) :
    (levelOuterStep^[k] c).E = c.E := by
  induction k generalizing c with
  | zero => rfl
  | succ k ih =>
      rw [Function.iterate_succ_apply]
      exact ih _

theorem levelOuterStep_iter_setE (k : Nat) (c : Cube (N + 1)) (g : Face (N + 1)) :
    levelOuterStep^[k] { c with E := g } = { levelOuterStep^[k] c with E := g } := by
  induction k generalizing c with
  | zero => rfl
  | succ k ih =>
      rw [Function.iterate_succ_apply, Function.iterate_succ_apply,
        show levelOuterStep { c with E := g } = { levelOuterStep c with E := g } from rfl]
      exact ih _

theorem levelOuterStep_four (c : Cube (N + 1)) : levelOuterStep^[4] c = c := by
  show levelOuterStep (levelOuterStep (levelOuterStep (levelOuterStep c))) = c
  refine Cube.ext ?_ ?_ rfl ?_ rfl ?_
  · funext i j
    by_cases h : i = (0 : Fin (N + 1)) <;> simp [levelOuterStep, h]
  · funext i j
    by_cases h : j = (0 : Fin (N + 1)) <;> simp [levelOuterStep, h]
  · funext i j
    by_cases h : j = Fin.last N <;> simp [levelOuterStep, h]
  · funext i j
    by_cases h : i = Fin.last N <;> simp [levelOuterStep, h]

theorem rotate_level_eq_outer (n : Int) (hn : n = 1 ∨ n = 2 ∨ n = 3)
    (c : Cube (N + 1)) :
    rotate_level n c =
      { levelOuterStep^[n.toNat] c with E := rot90Iter (4 - n).toNat c.E } := by
  unfold rotate_level
  rw [if_pos hn, levelOuterStep_iter_E]

theorem rotate_level_outer_pair (n m : Int) (hn : n = 1 ∨ n = 2 ∨ n = 3)
    (hm : m = 1 ∨ m = 2 ∨ m = 3) (hnm : n + m = 4) (c : Cube (N + 1)) :
    rotate_level m (rotate_level n c) = c := by
  rw [rotate_level_eq_outer n hn, rotate_level_eq_outer m hm, levelOuterStep_iter_setE,
    show ({ levelOuterStep^[n.toNat] c with E := rot90Iter (4 - n).toNat c.E } :
      Cube (N + 1)).E = rot90Iter (4 - n).toNat c.E from rfl, setE_collapse]
  have h1 : levelOuterStep^[m.toNat] (levelOuterStep^[n.toNat] c) = c := by
    rw [← Function.iterate_add_apply, show m.toNat + n.toNat = 4 by omega]
    exact levelOuterStep_four c
  have h2 : rot90Iter (4 - m).toNat (rot90Iter (4 - n).toNat c.E) = c.E := by
    rw [rot90Iter_add, show (4 - m).toNat + (4 - n).toNat = 4 by omega]
    exact rot90_four _
  rw [h1, h2]

theorem levelInnerStep_iter_C (k : Nat) (c : Cube (N + 1)) :
    (levelInnerStep^[k] c).C = c.C := by
  induction k generalizing c with
  | zero => rfl
  | succ k ih =>
      rw [Function.iterate_succ_apply]
      exact ih _

theorem levelInnerStep_iter_setC (k : Nat) (c : Cube (N + 1)) (g : Face (N + 1)) :
    levelInnerStep^[k] { c with C := g } = { levelInnerStep^[k] c with C := g } := by
  induction k generalizing c with
  | zero => rfl
  | succ k ih =>
      rw [Function.iterate_succ_apply, Function.iterate_succ_apply,
        show levelInnerStep { c with C := g } = { levelInnerStep c with C := g } from rfl]
      exact ih _

theorem levelInnerStep_four (c : Cube (N + 1)) : levelInnerStep^[4] c = c := by
  show levelInnerStep (levelInnerStep (levelInnerStep (levelInnerStep c))) = c
  refine Cube.ext ?_ ?_ rfl ?_ rfl ?_
  · funext i j
    by_cases h : i = (0 : Fin (N + 1)) <;> simp [levelInnerStep, h]
  · funext i j
    by_cases h : j = (0 : Fin (N + 1)) <;> simp [levelInnerStep, h]
  · funext i j
    by_cases h : j = Fin.last N <;> simp [levelInnerStep, h]
  · funext i j
    by_cases h : i = Fin.last N <;> simp [levelInnerStep, h]

theorem rotate_level_eq_inner (n : Int) (hn : n = 4 ∨ n = 5 ∨ n = 6)
    (c : Cube (N + 1)) :
    rotate_level n c =
      { levelInnerStep^[(n - 3).toNat] c with C := rot90Iter (n - 3).toNat c.C } := by
  unfold rotate_level
  rw [if_neg (by omega), if_pos hn, levelInnerStep_iter_C]

theorem rotate_level_inner_pair (n m : Int) (hn : n = 4 ∨ n = 5 ∨ n = 6)
    (hm : m = 4 ∨ m = 5 ∨ m = 6) (hnm : n + m = 10) (c : Cube (N + 1)) :
    rotate_level m (rotate_level n c) = c := by
  rw [rotate_level_eq_inner n hn, rotate_level_eq_inner m hm, levelInnerStep_iter_setC,
    show ({ levelInnerStep^[(n - 3).toNat] c with C := rot90Iter (n - 3).toNat c.C } :
      Cube (N + 1)).C = rot90Iter (n - 3).toNat c.C from rfl, setC_collapse]
  have h1 : levelInnerStep^[(m - 3).toNat] (levelInnerStep^[(n - 3).toNat] c) = c := by
    rw [← Function.iterate_add_apply, show (m - 3).toNat + (n - 3).toNat = 4 by omega]
    exact levelInnerStep_four c
  have h2 : rot90Iter (m - 3).toNat (rot90Iter (n - 3).toNat c.C) = c.C := by
    rw [rot90Iter_add, show (m - 3).toNat + (n - 3).toNat = 4 by omega]
    exact rot90_four _
  rw [h1, h2]

theorem rotate_level_quad (c : Cube (N + 1)) :
    rotate_level 1 (rotate_level 1 (rotate_level 1 (rotate_level 1 c))) = c := by
  rw [show rotate_level 1 (rotate_level 1 (rotate_level 1 (rotate_level 1 c))) =
        { levelOuterStep^[4] c with E := rot90Iter 12 c.E } from rfl,
    levelOuterStep_four c, rot90_twelve]

theorem sum_rev {n : Nat} (g : Fin n → Multiset Int) :
    (∑ i : Fin n, g i.rev) = ∑ i : Fin n, g i :=
  Equiv.sum_comp Fin.revPerm g

theorem faceMS_rot90 {n : Nat} (f : Face n) : faceMS (rot90 f) = faceMS f := by
  unfold faceMS rot90
  rw [Finset.sum_comm]
  exact Finset.sum_congr rfl fun j _ => sum_rev fun k => ({f j k} : Multiset Int)

theorem faceMS_rot90Iter {n : Nat} (k : Nat) (f : Face n) :
    faceMS (rot90Iter k f) = faceMS f := by
  induction k generalizing f with
  | zero => rfl
  | succ k ih =>
      rw [show rot90Iter (k + 1) f = rot90Iter k (rot90 f) from
        Function.iterate_succ_apply _ _ _, ih, faceMS_rot90]

theorem faceMS_split_row {n : Nat} (f : Face n) (a : Fin n) :
    faceMS f = sliceRest f a + sliceAt f a := by
  unfold faceMS sliceRest sliceAt
  exact (Finset.sum_erase_add _ _ (Finset.mem_univ a)).symm

theorem faceMS_split_col {n : Nat} (f : Face n) (a : Fin n) :
    faceMS f = colRest f a + colAt f a := by
  unfold faceMS colRest colAt
  rw [Finset.sum_comm]
  exact (Finset.sum_erase_add _ _ (Finset.mem_univ a)).symm

theorem sliceAt_congr {n : Nat} {f g : Face n} {a : Fin n}
    (h : ∀ j, f a j = g a j) : sliceAt f a = sliceAt g a :=
  Finset.sum_congr rfl fun j _ => by rw [h j]

theorem sliceRest_congr {n : Nat} {f g : Face n} {a : Fin n}
    (h : ∀ i, i ≠ a → ∀ j, f i j = g i j) : sliceRest f a = sliceRest g a :=
  Finset.sum_congr rfl fun i hi =>
    Finset.sum_congr rfl fun j _ => by rw [h i (Finset.ne_of_mem_erase hi) j]

theorem colAt_congr {n : Nat} {f g : Face n} {a : Fin n}
    (h : ∀ i, f i a = g i a) : colAt f a = colAt g a :=
  Finset.sum_congr rfl fun i _ => by rw [h i]

theorem colRest_congr {n : Nat} {f g : Face n} {a : Fin n}
    (h : ∀ j, j ≠ a → ∀ i, f i j = g i j) : colRest f a = colRest g a :=
  Finset.sum_congr rfl fun j hj =>
    Finset.sum_congr rfl fun i _ => by rw [h j (Finset.ne_of_mem_erase hj) i]

theorem colAt_rot90 {n : Nat} (f : Face n) (a : Fin n) :
    colAt (rot90 f) a = sliceAt f a :=
  sum_rev fun k => ({f a k} : Multiset Int)

theorem sliceAt_rot90 {n : Nat} (f : Face n) (a : Fin n) :
    sliceAt (rot90 f) a = colAt f a.rev := rfl

theorem colAt_rot2 {n : Nat} (f : Face n) (a : Fin n) :
    colAt (rot90 (rot90 f)) a = colAt f a.rev :=
  (colAt_rot90 (rot90 f) a).trans (sliceAt_rot90 f a)

theorem cubeMS_rowOuterStep (c : Cube (N + 1)) :
    cubeMS (rowOuterStep c) = cubeMS c := by
  have hB : faceMS (rowOuterStep c).B =
      sliceRest c.B (Fin.last N) + sliceAt c.E (Fin.last N) := by
    rw [faceMS_split_row _ (Fin.last N)]
    congr 1
    · exact sliceRest_congr fun i hi j => if_neg hi
    · exact sliceAt_congr fun j => if_pos rfl
  have hE : faceMS (rowOuterStep c).E =
      sliceRest c.E (Fin.last N) + sliceAt c.D (Fin.last N) := by
    rw [faceMS_split_row _ (Fin.last N)]
    congr 1
    · exact sliceRest_congr fun i hi j => if_neg hi
    · exact sliceAt_congr fun j => if_pos rfl
  have hD : faceMS (rowOuterStep c).D =
      sliceRest c.D (Fin.last N) + sliceAt c.C (Fin.last N) := by
    rw [faceMS_split_row _ (Fin.last N)]
    congr 1
    · exact sliceRest_congr fun i hi j => if_neg hi
    · exact sliceAt_congr fun j => if_pos rfl
  have hC : faceMS (rowOuterStep c).C =
      sliceRest c.C (Fin.last N) + sliceAt c.B (Fin.last N) := by
    rw [faceMS_split_row _ (Fin.last N)]
    congr 1
    · exact sliceRest_congr fun i hi j => if_neg hi
    · exact sliceAt_congr fun j => if_pos rfl
  rw [show cubeMS (rowOuterStep c) = faceMS c.A + faceMS (rowOuterStep c).B +
      faceMS (rowOuterStep c).C + faceMS (rowOuterStep c).D +
      faceMS (rowOuterStep c).E + faceMS c.F from rfl, hB, hC, hD, hE,
    show cubeMS c = faceMS c.A + faceMS c.B + faceMS c.C + faceMS c.D +
      faceMS c.E + faceMS c.F from rfl,
    faceMS_split_row c.B (Fin.last N), faceMS_split_row c.C (Fin.last N),
    faceMS_split_row c.D (Fin.last N), faceMS_split_row c.E (Fin.last N)]
  abel

theorem cubeMS_rowInnerStep (c : Cube (N + 1)) :
    cubeMS (rowInnerStep c) = cubeMS c := by
  have hB : faceMS (rowInnerStep c).B =
      sliceRest c.E (Fin.last N) + sliceAt c.B (Fin.last N) := by
    rw [faceMS_split_row _ (Fin.last N)]
    congr 1
    · exact sliceRest_congr fun i hi j => if_pos hi
    · exact sliceAt_congr fun j => if_neg (not_not_intro rfl)
  have hE : faceMS (rowInnerStep c).E =
      sliceRest c.D (Fin.last N) + sliceAt c.E (Fin.last N) := by
    rw [faceMS_split_row _ (Fin.last N)]
    congr 1
    · exact sliceRest_congr fun i hi j => if_pos hi
    · exact sliceAt_congr fun j => if_neg (not_not_intro rfl)
  have hD : faceMS (rowInnerStep c).D =
      sliceRest c.C (Fin.last N) + sliceAt c.D (Fin.last N) := by
    rw [faceMS_split_row _ (Fin.last N)]
    congr 1
    · exact sliceRest_congr fun i hi j => if_pos hi
    · exact sliceAt_congr fun j => if_neg (not_not_intro rfl)
  have hC : faceMS (rowInnerStep c).C =
      sliceRest c.B (Fin.last N) + sliceAt c.C (Fin.last N) := by
    rw [faceMS_split_row _ (Fin.last N)]
    congr 1
    · exact sliceRest_congr fun i hi j => if_pos hi
    · exact sliceAt_congr fun j => if_neg (not_not_intro rfl)
  rw [show cubeMS (rowInnerStep c) = faceMS c.A + faceMS (rowInnerStep c).B +
      faceMS (rowInnerStep c).C + faceMS (rowInnerStep c).D +
      faceMS (rowInnerStep c).E + faceMS c.F from rfl, hB, hC, hD, hE,
    show cubeMS c = faceMS c.A + faceMS c.B + faceMS c.C + faceMS c.D +
      faceMS c.E + faceMS c.F from rfl,
    faceMS_split_row c.B (Fin.last N), faceMS_split_row c.C (Fin.last N),
    faceMS_split_row c.D (Fin.last N), faceMS_split_row c.E (Fin.last N)]
  abel

theorem cubeMS_colOuterStep (c : Cube (N + 1)) :
    cubeMS (colOuterStep c) = cubeMS c := by
  have hA : faceMS (colOuterStep c).A =
      colRest c.A (Fin.last N) + colAt c.C (Fin.last N) := by
    rw [faceMS_split_col _ (Fin.last N)]
    congr 1
    · exact colRest_congr fun j hj i => if_neg hj
    · exact colAt_congr fun i => if_pos rfl
  have hC : faceMS (colOuterStep c).C =
      colRest c.C (Fin.last N) + colAt c.F (Fin.last N) := by
    rw [faceMS_split_col _ (Fin.last N)]
    congr 1
    · exact colRest_congr fun j hj i => if_neg hj
    · exact colAt_congr fun i => if_pos rfl
  have hF : faceMS (colOuterStep c).F =
      colRest c.F (Fin.last N) + colAt c.E 0 := by
    rw [faceMS_split_col _ (Fin.last N)]
    congr 1
    · exact colRest_congr fun j hj i => if_neg hj
    · calc colAt (colOuterStep c).F (Fin.last N)
          = ∑ i : Fin (N + 1), ({c.E i.rev 0} : Multiset Int) :=
            Finset.sum_congr rfl fun i _ => by
              rw [show (colOuterStep c).F i (Fin.last N) = c.E i.rev 0 from
                if_pos rfl]
        _ = colAt c.E 0 := sum_rev fun k => ({c.E k 0} : Multiset Int)
  have hE : faceMS (colOuterStep c).E =
      colRest c.E 0 + colAt c.A (Fin.last N) := by
    rw [faceMS_split_col _ 0]
    congr 1
    · exact colRest_congr fun j hj i => if_neg hj
    · exact sum_rev fun k => ({c.A k (Fin.last N)} : Multiset Int)
  rw [show cubeMS (colOuterStep c) = faceMS (colOuterStep c).A + faceMS c.B +
      faceMS (colOuterStep c).C + faceMS c.D + faceMS (colOuterStep c).E +
      faceMS (colOuterStep c).F from rfl, hA, hC, hE, hF,
    show cubeMS c = faceMS c.A + faceMS c.B + faceMS c.C + faceMS c.D +
      faceMS c.E + faceMS c.F from rfl,
    faceMS_split_col c.A (Fin.last N), faceMS_split_col c.C (Fin.last N),
    faceMS_split_col c.E 0, faceMS_split_col c.F (Fin.last N)]
  abel

theorem cubeMS_colInnerStep (c : Cube (N + 1)) :
    cubeMS (colInnerStep c) = cubeMS c := by
  have hA : faceMS (colInnerStep c).A =
      colRest c.C (Fin.last N) + colAt c.A (Fin.last N) := by
    rw [faceMS_split_col _ (Fin.last N)]
    congr 1
    · exact colRest_congr fun j hj i => if_pos hj
    · exact colAt_congr fun i => if_neg (not_not_intro rfl)
  have hC : faceMS (colInnerStep c).C =
      colRest c.F (Fin.last N) + colAt c.C (Fin.last N) := by
    rw [faceMS_split_col _ (Fin.last N)]
    congr 1
    · exact colRest_congr fun j hj i => if_pos hj
    · exact colAt_congr fun i => if_neg (not_not_intro rfl)
  have hF : faceMS (colInnerStep c).F =
      colRest (rot90 (rot90 c.E)) (Fin.last N) + colAt c.F (Fin.last N) := by
    rw [faceMS_split_col _ (Fin.last N)]
    congr 1
    · exact colRest_congr fun j hj i => if_pos hj
    · exact colAt_congr fun i => if_neg (not_not_intro rfl)
  have hE : faceMS (colInnerStep c).E =
      colRest (rot90 (rot90 c.A)) 0 + colAt c.E 0 := by
    rw [faceMS_split_col _ 0]
    congr 1
    exact colRest_congr fun j hj i => if_pos hj
  have hA2 : faceMS c.A = colRest (rot90 (rot90 c.A)) 0 + colAt c.A (Fin.last N) := by
    rw [← faceMS_rot90 c.A, ← faceMS_rot90 (rot90 c.A),
      faceMS_split_col (rot90 (rot90 c.A)) 0, colAt_rot2, Fin.rev_zero]
  have hE2 : faceMS c.E = colRest (rot90 (rot90 c.E)) (Fin.last N) + colAt c.E 0 := by
    rw [← faceMS_rot90 c.E, ← faceMS_rot90 (rot90 c.E),
      faceMS_split_col (rot90 (rot90 c.E)) (Fin.last N), colAt_rot2, Fin.rev_last]
  rw [show cubeMS (colInnerStep c) = faceMS (colInnerStep c).A + faceMS c.B +
      faceMS (colInnerStep c).C + faceMS c.D + faceMS (colInnerStep c).E +
      faceMS (colInnerStep c).F from rfl, hA, hC, hE, hF,
    show cubeMS c = faceMS c.A + faceMS c.B + faceMS c.C + faceMS c.D +
      faceMS c.E + faceMS c.F from rfl, hA2, hE2,
    faceMS_split_col c.C (Fin.last N), faceMS_split_col c.F (Fin.last N)]
  abel

theorem cubeMS_levelOuterStep (c : Cube (N + 1)) :
    cubeMS (levelOuterStep c) = cubeMS c := by
  have hA : faceMS (levelOuterStep c).A =
      sliceRest c.A 0 + colAt c.D (Fin.last N) := by
    rw [faceMS_split_row _ 0]
    congr 1
    exact sliceRest_congr fun i hi j => if_neg hi
  have hD : faceMS (levelOuterStep c).D =
      colRest c.D (Fin.last N) + sliceAt c.F (Fin.last N) := by
    rw [faceMS_split_col _ (Fin.last N)]
    congr 1
    · exact colRest_congr fun j hj i => if_neg hj
    · calc colAt (levelOuterStep c).D (Fin.last N)
          = ∑ i : Fin (N + 1), ({c.F (Fin.last N) i.rev} : Multiset Int) :=
            Finset.sum_congr rfl fun i _ => by
              rw [show (levelOuterStep c).D i (Fin.last N) =
                c.F (Fin.last N) i.rev from if_pos rfl]
        _ = sliceAt c.F (Fin.last N) :=
            sum_rev fun k => ({c.F (Fin.last N) k} : Multiset Int)
  have hF : faceMS (levelOuterStep c).F =
      sliceRest c.F (Fin.last N) + colAt c.B 0 := by
    rw [faceMS_split_row _ (Fin.last N)]
    congr 1
    · exact sliceRest_congr fun i hi j => if_neg hi
    · exact Finset.sum_congr rfl fun j _ => by
        rw [show (levelOuterStep c).F (Fin.last N) j = c.B j 0 from if_pos rfl]
  have hB : faceMS (levelOuterStep c).B =
      colRest c.B 0 + sliceAt c.A 0 := by
    rw [faceMS_split_col _ 0]
    congr 1
    · exact colRest_congr fun j hj i => if_neg hj
    · exact sum_rev fun k => ({c.A 0 k} : Multiset Int)
  rw [show cubeMS (levelOuterStep c) = faceMS (levelOuterStep c).A +
      faceMS (levelOuterStep c).B + faceMS c.C + faceMS (levelOuterStep c).D +
      faceMS c.E + faceMS (levelOuterStep c).F from rfl, hA, hB, hD, hF,
    show cubeMS c = faceMS c.A + faceMS c.B + faceMS c.C + faceMS c.D +
      faceMS c.E + faceMS c.F from rfl,
    faceMS_split_row c.A 0, faceMS_split_col c.B 0,
    faceMS_split_col c.D (Fin.last N), faceMS_split_row c.F (Fin.last N)]
  abel

theorem cubeMS_levelInnerStep (c : Cube (N + 1)) :
    cubeMS (levelInnerStep c) = cubeMS c := by
  have hA : faceMS (levelInnerStep c).A =
      sliceRest (rot90 c.D) 0 + sliceAt c.A 0 := by
    rw [faceMS_split_row _ 0]
    congr 1
    exact sliceRest_congr fun i hi j => if_pos hi
  have hD : faceMS (levelInnerStep c).D =
      colRest (rot90 c.F) (Fin.last N) + colAt c.D (Fin.last N) := by
    rw [faceMS_split_col _ (Fin.last N)]
    congr 1
    · exact colRest_congr fun j hj i => if_pos hj
    · exact colAt_congr fun i => if_neg (not_not_intro rfl)
  have hF : faceMS (levelInnerStep c).F =
      sliceRest (rot90 c.B) (Fin.last N) + sliceAt c.F (Fin.last N) := by
    rw [faceMS_split_row _ (Fin.last N)]
    congr 1
    · exact sliceRest_congr fun i hi j => if_pos hi
    · exact sliceAt_congr fun j => if_neg (not_not_intro rfl)
  have hB : faceMS (levelInnerStep c).B =
      colRest (rot90 c.A) 0 + colAt c.B 0 := by
    rw [faceMS_split_col _ 0]
    congr 1
    exact colRest_congr fun j hj i => if_pos hj
  have hA2 : faceMS c.A = colRest (rot90 c.A) 0 + sliceAt c.A 0 := by
    rw [← faceMS_rot90 c.A, faceMS_split_col (rot90 c.A) 0, colAt_rot90]
  have hB2 : faceMS c.B = sliceRest (rot90 c.B) (Fin.last N) + colAt c.B 0 := by
    rw [← faceMS_rot90 c.B, faceMS_split_row (rot90 c.B) (Fin.last N),
      sliceAt_rot90, Fin.rev_last]
  have hD2 : faceMS c.D = sliceRest (rot90 c.D) 0 + colAt c.D (Fin.last N) := by
    rw [← faceMS_rot90 c.D, faceMS_split_row (rot90 c.D) 0,
      sliceAt_rot90, Fin.rev_zero]
  have hF2 : faceMS c.F = colRest (rot90 c.F) (Fin.last N) + sliceAt c.F (Fin.last N) := by
    rw [← faceMS_rot90 c.F, faceMS_split_col (rot90 c.F) (Fin.last N), colAt_rot90]
  rw [show cubeMS (levelInnerStep c) = faceMS (levelInnerStep c).A +
      faceMS (levelInnerStep c).B + faceMS c.C + faceMS (levelInnerStep c).D +
      faceMS c.E + faceMS (levelInnerStep c).F from rfl, hA, hB, hD, hF,
    show cubeMS c = faceMS c.A + faceMS c.B + faceMS c.C + faceMS c.D +
      faceMS c.E + faceMS c.F from rfl, hA2, hB2, hD2, hF2]
  abel

theorem cubeMS_iterate {g : Cube (N + 1) → Cube (N + 1)}
    (hg : ∀ x, cubeMS (g x) = cubeMS x) (k : Nat) (c : Cube (N + 1)) :
    cubeMS (g^[k] c) = cubeMS c := by
  induction k generalizing c with
  | zero => rfl
  | succ k ih =>
      rw [Function.iterate_succ_apply]
      exact (ih _).trans (hg c)

theorem cubeMS_setF_rot {n : Nat} (x : Cube n) (m : Nat) :
    cubeMS { x with F := rot90Iter m x.F } = cubeMS x := by
  show faceMS x.A + faceMS x.B + faceMS x.C + faceMS x.D + faceMS x.E +
      faceMS (rot90Iter m x.F) = cubeMS x
  rw [faceMS_rot90Iter]
  rfl

theorem cubeMS_setA_rot {n : Nat} (x : Cube n) (m : Nat) :
    cubeMS { x with A := rot90Iter m x.A } = cubeMS x := by
  show faceMS (rot90Iter m x.A) + faceMS x.B + faceMS x.C + faceMS x.D +
      faceMS x.E + faceMS x.F = cubeMS x
  rw [faceMS_rot90Iter]
  rfl

theorem cubeMS_setD_rot {n : Nat} (x : Cube n) (m : Nat) :
    cubeMS { x with D := rot90Iter m x.D } = cubeMS x := by
  show faceMS x.A + faceMS x.B + faceMS x.C + faceMS (rot90Iter m x.D) +
      faceMS x.E + faceMS x.F = cubeMS x
  rw [faceMS_rot90Iter]
  rfl

theorem cubeMS_setB_rot {n : Nat} (x : Cube n) (m : Nat) :
    cubeMS { x with B := rot90Iter m x.B } = cubeMS x := by
  show faceMS x.A + faceMS (rot90Iter m x.B) + faceMS x.C + faceMS x.D +
      faceMS x.E + faceMS x.F = cubeMS x
  rw [faceMS_rot90Iter]
  rfl

theorem cubeMS_setE_rot {n : Nat} (x : Cube n) (m : Nat) :
    cubeMS { x with E := rot90Iter m x.E } = cubeMS x := by
  show faceMS x.A + faceMS x.B + faceMS x.C + faceMS x.D +
      faceMS (rot90Iter m x.E) + faceMS x.F = cubeMS x
  rw [faceMS_rot90Iter]
  rfl

theorem cubeMS_setC_rot {n : Nat} (x : Cube n) (m : Nat) :
    cubeMS { x with C := rot90Iter m x.C } = cubeMS x := by
  show faceMS x.A + faceMS x.B + faceMS (rot90Iter m x.C) + faceMS x.D +
      faceMS x.E + faceMS x.F = cubeMS x
  rw [faceMS_rot90Iter]
  rfl

theorem cubeMS_rotate_row (n : Int) (c : Cube (N + 1)) :
    cubeMS (rotate_row n c) = cubeMS c := by
  unfold rotate_row
  split_ifs with h1 h2
  · exact (cubeMS_setF_rot _ _).trans (cubeMS_iterate cubeMS_rowOuterStep _ _)
  · exact (cubeMS_setA_rot _ _).trans (cubeMS_iterate cubeMS_rowInnerStep _ _)
  · rfl

theorem cubeMS_rotate_column (n : Int) (c : Cube (N + 1)) :
    cubeMS (rotate_column n c) = cubeMS c := by
  unfold rotate_column
  split_ifs with h1 h2
  · exact (cubeMS_setD_rot _ _).trans (cubeMS_iterate cubeMS_colOuterStep _ _)
  · exact (cubeMS_setB_rot _ _).trans (cubeMS_iterate cubeMS_colInnerStep _ _)
  · rfl

theorem cubeMS_rotate_level (n : Int) (c : Cube (N + 1)) :
    cubeMS (rotate_level n c) = cubeMS c := by
  unfold rotate_level
  split_ifs with h1 h2
  · exact (cubeMS_setE_rot _ _).trans (cubeMS_iterate cubeMS_levelOuterStep _ _)
  · exact (cubeMS_setC_rot _ _).trans (cubeMS_iterate cubeMS_levelInnerStep _ _)
  · rfl

theorem cubeMS_applyToken (tok : List Char) (c c2 : Cube (N + 1))
    (h : applyToken tok c = Except.ok c2) : cubeMS c2 = cubeMS c := by
  match tok with
  | [] => exact absurd h (by simp [applyToken])
  | ch :: rest =>
    simp only [applyToken] at h
    split_ifs at h
    · match rest with
      | [] => exact absurd h (by simp)
      | d :: _ =>
          unfold pyIntChar at h
          dsimp only at h
          cases hp : pyDigit d with
          | some v =>
              simp only [hp] at h
              rw [show c2 = rotate_row ((v : Nat) : Int) c from by
                injection h with h2
                exact h2.symm]
              exact cubeMS_rotate_row _ _
          | none =>
              simp only [hp] at h
              exact absurd h (by simp [Except.map])
    · match rest with
      | [] => exact absurd h (by simp)
      | d :: _ =>
          unfold pyIntChar at h
          dsimp only at h
          cases hp : pyDigit d with
          | some v =>
              simp only [hp] at h
              rw [show c2 = rotate_column ((v : Nat) : Int) c from by
                injection h with h2
                exact h2.symm]
              exact cubeMS_rotate_column _ _
          | none =>
              simp only [hp] at h
              exact absurd h (by simp [Except.map])
    · match rest with
      | [] => exact absurd h (by simp)
      | d :: _ =>
          unfold pyIntChar at h
          dsimp only at h
          cases hp : pyDigit d with
          | some v =>
              simp only [hp] at h
              rw [show c2 = rotate_level ((v : Nat) : Int) c from by
                injection h with h2
                exact h2.symm]
              exact cubeMS_rotate_level _ _
          | none =>
              simp only [hp] at h
              exact absurd h (by simp [Except.map])
    · rw [show c2 = c from by injection h with h2; exact h2.symm]

theorem cubeMS_encryptTokens (toks : List (List Char)) (c : Cube (N + 1)) :
    cubeMS (encryptTokens toks c).1 = cubeMS c := by
  induction toks generalizing c with
  | nil => rfl
  | cons t ts ih =>
      unfold encryptTokens
      cases h : applyToken t c with
      | ok c2 => exact (ih c2).trans (cubeMS_applyToken t c c2 h)
      | error e => rfl

theorem rowOuterStep_iter_A (k : Nat) (c : Cube (N + 1)) :
    (rowOuterStep^[k] c).A = c.A := by
  induction k generalizing c with
  | zero => rfl
  | succ k ih =>
      rw [Function.iterate_succ_apply]
      exact ih _

theorem rowInnerStep_iter_F (k : Nat) (c : Cube (N + 1)) :
    (rowInnerStep^[k] c).F = c.F := by
  induction k generalizing c with
  | zero => rfl
  | succ k ih =>
      rw [Function.iterate_succ_apply]
      exact ih _

theorem colOuterStep_iter_B (k : Nat) (c : Cube (N + 1)) :
    (colOuterStep^[k] c).B = c.B := by
  induction k generalizing c with
  | zero => rfl
  | succ k ih =>
      rw [Function.iterate_succ_apply]
      exact ih _

theorem colInnerStep_iter_D (k : Nat) (c : Cube (N + 1)) :
    (colInnerStep^[k] c).D = c.D := by
  induction k generalizing c with
  | zero => rfl
  | succ k ih =>
      rw [Function.iterate_succ_apply]
      exact ih _

theorem levelOuterStep_iter_C (k : Nat) (c : Cube (N + 1)) :
    (levelOuterStep^[k] c).C = c.C := by
  induction k generalizing c with
  | zero => rfl
  | succ k ih =>
      rw [Function.iterate_succ_apply]
      exact ih _

theorem levelInnerStep_iter_E (k : Nat) (c : Cube (N + 1)) :
    (levelInnerStep^[k] c).E = c.E := by
  induction k generalizing c with
  | zero => rfl
  | succ k ih =>
      rw [Function.iterate_succ_apply]
      exact ih _

theorem rowOuter_iter_ring (k : Nat) (c : Cube (N + 1)) (i j : Fin (N + 1))
    (hi : i ≠ Fin.last N) :
    (rowOuterStep^[k] c).B i j = c.B i j ∧ (rowOuterStep^[k] c).C i j = c.C i j ∧
    (rowOuterStep^[k] c).D i j = c.D i j ∧ (rowOuterStep^[k] c).E i j = c.E i j := by
  induction k generalizing c with
  | zero => exact ⟨rfl, rfl, rfl, rfl⟩
  | succ k ih =>
      rw [Function.iterate_succ_apply]
      obtain ⟨e1, e2, e3, e4⟩ := ih (rowOuterStep c)
      exact ⟨e1.trans (if_neg hi), e2.trans (if_neg hi), e3.trans (if_neg hi),
        e4.trans (if_neg hi)⟩

theorem rowInner_iter_ring (k : Nat) (c : Cube (N + 1)) (j : Fin (N + 1)) :
    (rowInnerStep^[k] c).B (Fin.last N) j = c.B (Fin.last N) j ∧
    (rowInnerStep^[k] c).C (Fin.last N) j = c.C (Fin.last N) j ∧
    (rowInnerStep^[k] c).D (Fin.last N) j = c.D (Fin.last N) j ∧
    (rowInnerStep^[k] c).E (Fin.last N) j = c.E (Fin.last N) j := by
  induction k generalizing c with
  | zero => exact ⟨rfl, rfl, rfl, rfl⟩
  | succ k ih =>
      rw [Function.iterate_succ_apply]
      obtain ⟨e1, e2, e3, e4⟩ := ih (rowInnerStep c)
      exact ⟨e1.trans (if_neg (not_not_intro rfl)),
        e2.trans (if_neg (not_not_intro rfl)),
        e3.trans (if_neg (not_not_intro rfl)),
        e4.trans (if_neg (not_not_intro rfl))⟩

theorem colOuter_iter_ring (k : Nat) (c : Cube (N + 1)) :
    (∀ i j, j ≠ Fin.last N → (colOuterStep^[k] c).A i j = c.A i j ∧
      (colOuterStep^[k] c).C i j = c.C i j ∧ (colOuterStep^[k] c).F i j = c.F i j) ∧
    (∀ i j, j ≠ 0 → (colOuterStep^[k] c).E i j = c.E i j) := by
  induction k generalizing c with
  | zero => exact ⟨fun i j _ => ⟨rfl, rfl, rfl⟩, fun i j _ => rfl⟩
  | succ k ih =>
      rw [Function.iterate_succ_apply]
      obtain ⟨ih1, ih2⟩ := ih (colOuterStep c)
      refine ⟨fun i j hj => ?_, fun i j hj => (ih2 i j hj).trans (if_neg hj)⟩
      obtain ⟨e1, e2, e3⟩ := ih1 i j hj
      exact ⟨e1.trans (if_neg hj), e2.trans (if_neg hj), e3.trans (if_neg hj)⟩

theorem colInner_iter_ring (k : Nat) (c : Cube (N + 1)) :
    (∀ i, (colInnerStep^[k] c).A i (Fin.last N) = c.A i (Fin.last N) ∧
      (colInnerStep^[k] c).C i (Fin.last N) = c.C i (Fin.last N) ∧
      (colInnerStep^[k] c).F i (Fin.last N) = c.F i (Fin.last N)) ∧
    (∀ i, (colInnerStep^[k] c).E i 0 = c.E i 0) := by
  induction k generalizing c with
  | zero => exact ⟨fun i => ⟨rfl, rfl, rfl⟩, fun i => rfl⟩
  | succ k ih =>
      rw [Function.iterate_succ_apply]
      obtain ⟨ih1, ih2⟩ := ih (colInnerStep c)
      refine ⟨fun i => ?_, fun i => ih2 i⟩
      obtain ⟨e1, e2, e3⟩ := ih1 i
      exact ⟨e1.trans (if_neg (not_not_intro rfl)),
        e2.trans (if_neg (not_not_intro rfl)),
        e3.trans (if_neg (not_not_intro rfl))⟩

theorem levelOuter_iter_ring (k : Nat) (c : Cube (N + 1)) :
    (∀ i j, i ≠ 0 → (levelOuterStep^[k] c).A i j = c.A i j) ∧
    (∀ i j, j ≠ 0 → (levelOuterStep^[k] c).B i j = c.B i j) ∧
    (∀ i j, i ≠ Fin.last N → (levelOuterStep^[k] c).F i j = c.F i j) ∧
    (∀ i j, j ≠ Fin.last N → (levelOuterStep^[k] c).D i j = c.D i j) := by
  induction k generalizing c with
  | zero => exact ⟨fun i j _ => rfl, fun i j _ => rfl, fun i j _ => rfl,
      fun i j _ => rfl⟩
  | succ k ih =>
      rw [Function.iterate_succ_apply]
      obtain ⟨ih1, ih2, ih3, ih4⟩ := ih (levelOuterStep c)
      exact ⟨fun i j hi => (ih1 i j hi).trans (if_neg hi),
        fun i j hj => (ih2 i j hj).trans (if_neg hj),
        fun i j hi => (ih3 i j hi).trans (if_neg hi),
        fun i j hj => (ih4 i j hj).trans (if_neg hj)⟩

theorem levelInner_iter_ring (k : Nat) (c : Cube (N + 1)) :
    (∀ j, (levelInnerStep^[k] c).A 0 j = c.A 0 j) ∧
    (∀ i, (levelInnerStep^[k] c).B i 0 = c.B i 0) ∧
    (∀ j, (levelInnerStep^[k] c).F (Fin.last N) j = c.F (Fin.last N) j) ∧
    (∀ i, (levelInnerStep^[k] c).D i (Fin.last N) = c.D i (Fin.last N)) := by
  induction k generalizing c with
  | zero => exact ⟨fun j => rfl, fun i => rfl, fun j => rfl, fun i => rfl⟩
  | succ k ih =>
      rw [Function.iterate_succ_apply]
      obtain ⟨ih1, ih2, ih3, ih4⟩ := ih (levelInnerStep c)
      exact ⟨fun j => ih1 j, fun i => ih2 i,
        fun j => (ih3 j).trans (if_neg (not_not_intro rfl)),
        fun i => (ih4 i).trans (if_neg (not_not_intro rfl))⟩

theorem toInt8_of_lt (i : Nat) (h : i < 128) : toInt8 i = (i : Int) := by
  unfold toInt8
  rw [Nat.mod_eq_of_lt (by omega), if_pos h]

theorem scan_lt (n b y x : Nat) (hb : b < 6) (hy : y < n) (hx : x < n)
    (h6 : 6 * n ^ 2 ≤ 128) : b * n ^ 2 + y * n + x < 128 := by
  calc b * n ^ 2 + y * n + x
      < b * n ^ 2 + y * n + n := by omega
    _ = b * n ^ 2 + (y + 1) * n := by ring
    _ ≤ b * n ^ 2 + n * n := Nat.add_le_add_left (Nat.mul_le_mul_right n hy) _
    _ = (b + 1) * n ^ 2 := by ring
    _ ≤ 6 * n ^ 2 := Nat.mul_le_mul_right _ hb
    _ ≤ 128 := h6

theorem mod_digit (n q r : Nat) (hr : r < n) : (q * n + r) % n = r := by
  rw [Nat.mul_comm, Nat.mul_add_mod, Nat.mod_eq_of_lt hr]

theorem digit_pair_inj (n q r q' r' : Nat) (hr : r < n) (hr' : r' < n)
    (h : q * n + r = q' * n + r') : q = q' ∧ r = r' := by
  have hn : 0 < n := by omega
  have e1 : r = r' := by
    have t : (q * n + r) % n = (q' * n + r') % n := by rw [h]
    rwa [mod_digit n q r hr, mod_digit n q' r' hr'] at t
  subst e1
  exact ⟨Nat.eq_of_mul_eq_mul_right hn (Nat.add_right_cancel h), rfl⟩

theorem scan_inj (n a b c a' b' c' : Nat) (hb : b < n) (hc : c < n)
    (hb' : b' < n) (hc' : c' < n)
    (h : a * n ^ 2 + b * n + c = a' * n ^ 2 + b' * n + c') :
    a = a' ∧ b = b' ∧ c = c' := by
  have h2 : (a * n + b) * n + c = (a' * n + b') * n + c' := by
    calc (a * n + b) * n + c = a * n ^ 2 + b * n + c := by ring
      _ = a' * n ^ 2 + b' * n + c' := h
      _ = (a' * n + b') * n + c' := by ring
  obtain ⟨e1, e2⟩ := digit_pair_inj n _ _ _ _ hc hc' h2
  obtain ⟨e3, e4⟩ := digit_pair_inj n _ _ _ _ hb hb' e1
  exact ⟨e3, e4, e2⟩

end RubiksCube

namespace RubiksCube


/-- Claim C2, counterexample: at `n = 0` (and `n = 7 > 2N`) every rotation
method returns normally — no `InvalidMove` is ever raised, contradicting the
spec's error contract `specRowCall`; the state is merely left unchanged. -/
theorem c2_no_invalid_move_raised :
    rowCall 0 (init_arange 3) ≠ specRowCall 0 (init_arange 3) ∧
    colCall 0 (init_arange 3) ≠ specColCall 0 (init_arange 3) ∧
    levelCall 0 (init_arange 3) ≠ specLevelCall 0 (init_arange 3) ∧
    rowCall 7 (init_arange 3) ≠ specRowCall 7 (init_arange 3) ∧
    rotate_row 0 (init_arange 3) = init_arange 3 ∧
    rotate_row 7 (init_arange 3) = init_arange 3 := by
  refine ⟨?_, ?_, ?_, ?_, by decide, by decide⟩ <;>
    simp [rowCall, colCall, levelCall, specRowCall, specColCall, specLevelCall]

/-- Claim C2, amended: for every cube state and every integer `n` outside
`[1, 6]`, each rotation method returns normally (raising no error) and leaves
the state bit-for-bit unchanged — the out-of-range move is silently ignored,
not rejected with `InvalidMove`. -/
theorem c2_out_of_range_silent (c : Cube (N + 1)) (n : Int) (h : n < 1 ∨ 6 < n) :
    rowCall n c = Except.ok c ∧ colCall n c = Except.ok c ∧
    levelCall n c = Except.ok c := by
  refine ⟨?_, ?_, ?_⟩ <;>
    simp [rowCall, colCall, levelCall,
      rotate_row_noop _ _ h, rotate_column_noop _ _ h, rotate_level_noop _ _ h]

/-- Witness for `c2_out_of_range_silent` at `n = 0` on the standard cube. -/
theorem c2_out_of_range_silent_witness :
    rowCall 0 (init_arange 3) = Except.ok (init_arange 3) ∧
    colCall 0 (init_arange 3) = Except.ok (init_arange 3) ∧
    levelCall 0 (init_arange 3) = Except.ok (init_arange 3) :=
  c2_out_of_range_silent (init_arange 3) 0 (Or.inl (by decide))

/-- Claim C10: for every cube state and every integer `n` outside
`{1, 2, 3, 4, 5, 6}`, each of the three rotation methods returns without any
error and leaves the state exactly unchanged (a silent no-op). -/
theorem c10_out_of_range_noop (c : Cube (N + 1)) (n : Int)
    (h : ¬(n = 1 ∨ n = 2 ∨ n = 3 ∨ n = 4 ∨ n = 5 ∨ n = 6)) :
    rotate_row n c = c ∧ rotate_column n c = c ∧ rotate_level n c = c :=
  ⟨rotate_row_noop n c (by omega), rotate_column_noop n c (by omega),
    rotate_level_noop n c (by omega)⟩

/-- Witness for `c10_out_of_range_noop` at `n = 7`. -/
theorem c10_out_of_range_noop_witness :
    rotate_row 7 (init_arange 3) = init_arange 3 ∧
    rotate_column 7 (init_arange 3) = init_arange 3 ∧
    rotate_level 7 (init_arange 3) = init_arange 3 :=
  c10_out_of_range_noop (init_arange 3) 7 (by decide)

/-- Claim C4: four quarter turns are the identity — applying `rotate_row(1)`
four times to any state of any (positive) size returns the original state
exactly, and likewise for `rotate_column(1)` and `rotate_level(1)`. -/
theorem c4_four_quarter_turns (c : Cube (N + 1)) :
    rotate_row 1 (rotate_row 1 (rotate_row 1 (rotate_row 1 c))) = c ∧
    rotate_column 1 (rotate_column 1 (rotate_column 1 (rotate_column 1 c))) = c ∧
    rotate_level 1 (rotate_level 1 (rotate_level 1 (rotate_level 1 c))) = c :=
  ⟨rotate_row_quad c, rotate_column_quad c, rotate_level_quad c⟩

/-- Claim C3, counterexample: `rotate_row(1)` (an outer-case move, `n = 1 ∈
[1, N]`) is not undone by any inner-case repeat of the same family: composing
it with `rotate_row(m)` for each inner-case `m ∈ {4, 5, 6}` never restores the
original state (outer and inner slices are disjoint). -/
theorem c3_no_inner_inverse_of_outer :
    rotate_row 4 (rotate_row 1 (init_arange 3)) ≠ init_arange 3 ∧
    rotate_row 5 (rotate_row 1 (init_arange 3)) ≠ init_arange 3 ∧
    rotate_row 6 (rotate_row 1 (init_arange 3)) ≠ init_arange 3 := by
  refine ⟨?_, ?_, ?_⟩ <;> decide

/-- Claim C3, amended: each move is undone by the complementary repeat of the
same case of the same family — outer `n ∈ {1,2,3}` by the outer repeat `4-n`,
inner `n ∈ {4,5,6}` by the inner repeat `10-n` — on every state of every
(positive) size. -/
theorem c3_inverse_same_case (c : Cube (N + 1)) (n : Int) :
    ((n = 1 ∨ n = 2 ∨ n = 3) →
      rotate_row (4 - n) (rotate_row n c) = c ∧
      rotate_column (4 - n) (rotate_column n c) = c ∧
      rotate_level (4 - n) (rotate_level n c) = c) ∧
    ((n = 4 ∨ n = 5 ∨ n = 6) →
      rotate_row (10 - n) (rotate_row n c) = c ∧
      rotate_column (10 - n) (rotate_column n c) = c ∧
      rotate_level (10 - n) (rotate_level n c) = c) := by
  constructor
  · intro hn
    exact ⟨rotate_row_outer_pair n (4 - n) hn (by omega) (by omega) c,
      rotate_column_outer_pair n (4 - n) hn (by omega) (by omega) c,
      rotate_level_outer_pair n (4 - n) hn (by omega) (by omega) c⟩
  · intro hn
    exact ⟨rotate_row_inner_pair n (10 - n) hn (by omega) (by omega) c,
      rotate_column_inner_pair n (10 - n) hn (by omega) (by omega) c,
      rotate_level_inner_pair n (10 - n) hn (by omega) (by omega) c⟩

/-- Witness for `c3_inverse_same_case` at `n = 1` and `n = 4` on the standard
cube. -/
theorem c3_inverse_same_case_witness :
    (rotate_row 3 (rotate_row 1 (init_arange 3)) = init_arange 3 ∧
      rotate_column 3 (rotate_column 1 (init_arange 3)) = init_arange 3 ∧
      rotate_level 3 (rotate_level 1 (init_arange 3)) = init_arange 3) ∧
    (rotate_row 6 (rotate_row 4 (init_arange 3)) = init_arange 3 ∧
      rotate_column 6 (rotate_column 4 (init_arange 3)) = init_arange 3 ∧
      rotate_level 6 (rotate_level 4 (init_arange 3)) = init_arange 3) :=
  ⟨(c3_inverse_same_case (init_arange 3) 1).1 (by norm_num),
    (c3_inverse_same_case (init_arange 3) 4).2 (by norm_num)⟩

/-- Claim C5, counterexample: the accepted parameter range is not `[1, 2N]`
for every `N`.  For `N = 4`, `n = 7 ∈ [1, 8]` performs no rotation at all,
while for `N = 2`, `n = 5 ∉ [1, 4]` does perform a rotation. -/
theorem c5_range_not_two_n :
    rotate_row 7 (init_arange 4) = init_arange 4 ∧
    rotate_row 5 (init_arange 2) ≠ init_arange 2 := by
  constructor <;> decide

/-- Claim C1: every rotation call — with any parameter, in range or not — and
hence every key-driven sequence of rotations preserves the multiset of the
`6N²` cube symbols (no value created, duplicated, or lost); in particular
pairwise distinct symbols remain pairwise distinct after any such move or
sequence. -/
theorem c1_moves_permute_symbols (c : Cube (N + 1)) (n : Int) (key : List Char) :
    cubeMS (rotate_row n c) = cubeMS c ∧
    cubeMS (rotate_column n c) = cubeMS c ∧
    cubeMS (rotate_level n c) = cubeMS c ∧
    cubeMS (encrypt key c).1 = cubeMS c ∧
    ((cubeMS c).Nodup →
      (cubeMS (rotate_row n c)).Nodup ∧ (cubeMS (rotate_column n c)).Nodup ∧
      (cubeMS (rotate_level n c)).Nodup ∧ (cubeMS (encrypt key c).1).Nodup) :=
  ⟨cubeMS_rotate_row n c, cubeMS_rotate_column n c, cubeMS_rotate_level n c,
    cubeMS_encryptTokens _ c, fun hd =>
      ⟨(cubeMS_rotate_row n c).symm ▸ hd, (cubeMS_rotate_column n c).symm ▸ hd,
        (cubeMS_rotate_level n c).symm ▸ hd,
        (cubeMS_encryptTokens (splitDash key) c).symm ▸ hd⟩⟩

/-- Witness for `c1_moves_permute_symbols` on the size-1 labelled cube. -/
theorem c1_moves_permute_symbols_witness :
    (cubeMS (rotate_row 1 (init_arange 1))).Nodup ∧
    (cubeMS (rotate_column 1 (init_arange 1))).Nodup ∧
    (cubeMS (rotate_level 1 (init_arange 1))).Nodup ∧
    (cubeMS (encrypt ['R', '1'] (init_arange 1)).1).Nodup :=
  (c1_moves_permute_symbols (init_arange 1) 1 ['R', '1']).2.2.2.2 (by decide)

/-- Claim C5, amended: for every (positive) size, each move family performs a
rotation exactly for `n` in `[1, 6]` (not `[1, 2N]`): `n ∈ [1, 3]` acts on
the outer slice of its ring — the far cap (`A`/`B`/`C`) and the inner slices
are untouched — `n ∈ [4, 6]` acts on the inner slice — the near cap
(`F`/`D`/`E`) and the outer slices are untouched — and every other `n` is a
no-op. -/
theorem c5_param_range (c : Cube (N + 1)) (n : Int) :
    (¬(1 ≤ n ∧ n ≤ 6) →
      rotate_row n c = c ∧ rotate_column n c = c ∧ rotate_level n c = c) ∧
    ((n = 1 ∨ n = 2 ∨ n = 3) →
      (rotate_row n c).A = c.A ∧
      (∀ i j, i ≠ Fin.last N →
        (rotate_row n c).B i j = c.B i j ∧ (rotate_row n c).C i j = c.C i j ∧
        (rotate_row n c).D i j = c.D i j ∧ (rotate_row n c).E i j = c.E i j) ∧
      (rotate_column n c).B = c.B ∧
      (∀ i j, j ≠ Fin.last N →
        (rotate_column n c).A i j = c.A i j ∧
        (rotate_column n c).C i j = c.C i j ∧
        (rotate_column n c).F i j = c.F i j) ∧
      (∀ i j, j ≠ 0 → (rotate_column n c).E i j = c.E i j) ∧
      (rotate_level n c).C = c.C ∧
      (∀ i j, i ≠ 0 → (rotate_level n c).A i j = c.A i j) ∧
      (∀ i j, j ≠ 0 → (rotate_level n c).B i j = c.B i j) ∧
      (∀ i j, i ≠ Fin.last N → (rotate_level n c).F i j = c.F i j) ∧
      (∀ i j, j ≠ Fin.last N → (rotate_level n c).D i j = c.D i j)) ∧
    ((n = 4 ∨ n = 5 ∨ n = 6) →
      (rotate_row n c).F = c.F ∧
      (∀ j, (rotate_row n c).B (Fin.last N) j = c.B (Fin.last N) j ∧
        (rotate_row n c).C (Fin.last N) j = c.C (Fin.last N) j ∧
        (rotate_row n c).D (Fin.last N) j = c.D (Fin.last N) j ∧
        (rotate_row n c).E (Fin.last N) j = c.E (Fin.last N) j) ∧
      (rotate_column n c).D = c.D ∧
      (∀ i, (rotate_column n c).A i (Fin.last N) = c.A i (Fin.last N) ∧
        (rotate_column n c).C i (Fin.last N) = c.C i (Fin.last N) ∧
        (rotate_column n c).F i (Fin.last N) = c.F i (Fin.last N)) ∧
      (∀ i, (rotate_column n c).E i 0 = c.E i 0) ∧
      (rotate_level n c).E = c.E ∧
      (∀ j, (rotate_level n c).A 0 j = c.A 0 j) ∧
      (∀ i, (rotate_level n c).B i 0 = c.B i 0) ∧
      (∀ j, (rotate_level n c).F (Fin.last N) j = c.F (Fin.last N) j) ∧
      (∀ i, (rotate_level n c).D i (Fin.last N) = c.D i (Fin.last N))) := by
  refine ⟨fun h => ⟨rotate_row_noop n c (by omega), rotate_column_noop n c (by omega),
    rotate_level_noop n c (by omega)⟩, fun hn => ?_, fun hn => ?_⟩
  · rw [rotate_row_eq_outer n hn, rotate_column_eq_outer n hn,
      rotate_level_eq_outer n hn]
    exact ⟨rowOuterStep_iter_A _ c, fun i j hi => rowOuter_iter_ring _ c i j hi,
      colOuterStep_iter_B _ c, fun i j hj => ((colOuter_iter_ring _ c).1 i j hj),
      fun i j hj => (colOuter_iter_ring _ c).2 i j hj,
      levelOuterStep_iter_C _ c,
      fun i j hi => (levelOuter_iter_ring _ c).1 i j hi,
      fun i j hj => (levelOuter_iter_ring _ c).2.1 i j hj,
      fun i j hi => (levelOuter_iter_ring _ c).2.2.1 i j hi,
      fun i j hj => (levelOuter_iter_ring _ c).2.2.2 i j hj⟩
  · rw [rotate_row_eq_inner n hn, rotate_column_eq_inner n hn,
      rotate_level_eq_inner n hn]
    exact ⟨rowInnerStep_iter_F _ c, fun j => rowInner_iter_ring _ c j,
      colInnerStep_iter_D _ c, fun i => (colInner_iter_ring _ c).1 i,
      fun i => (colInner_iter_ring _ c).2 i,
      levelInnerStep_iter_E _ c,
      fun j => (levelInner_iter_ring _ c).1 j,
      fun i => (levelInner_iter_ring _ c).2.1 i,
      fun j => (levelInner_iter_ring _ c).2.2.1 j,
      fun i => (levelInner_iter_ring _ c).2.2.2 i⟩

/-- Witness for `c5_param_range` at `n = 7`, `n = 1` and `n = 4` on the
standard cube. -/
theorem c5_param_range_witness :
    (rotate_row 7 (init_arange 3) = init_arange 3 ∧
      rotate_column 7 (init_arange 3) = init_arange 3 ∧
      rotate_level 7 (init_arange 3) = init_arange 3) ∧
    (rotate_row 1 (init_arange 3)).A = (init_arange 3).A ∧
    (rotate_row 4 (init_arange 3)).F = (init_arange 3).F :=
  ⟨(c5_param_range (init_arange 3) 7).1 (by decide),
    ((c5_param_range (init_arange 3) 1).2.1 (by norm_num)).1,
    ((c5_param_range (init_arange 3) 4).2.2 (by norm_num)).1⟩

/-- Claim C6, counterexample: on the token `R12`, key application invokes
`rotate_row` with `n = 1` (only `move[1]` is parsed), not with `n = 12` as
the value of the whole remainder; since `rotate_row 12` is a no-op while
`rotate_row 1` is not, the two behaviours differ on the standard cube. -/
theorem c6_remainder_not_parsed :
    (encrypt ['R', '1', '2'] (init_arange 3)).1 ≠ rotate_row 12 (init_arange 3) ∧
    (encrypt ['R', '1', '2'] (init_arange 3)).1 = rotate_row 1 (init_arange 3) ∧
    rotate_row 12 (init_arange 3) = init_arange 3 := by
  refine ⟨?_, ?_, ?_⟩ <;> decide

/-- Claim C6, amended: for a token whose letter is `R`, `C` or `L` followed
by a digit `d`, key application parses `n` as the value of the single
character `d` at index 1 and invokes the corresponding rotation with that
`n`; all further characters of the token are ignored. -/
theorem c6_second_char_is_param (c : Cube (N + 1)) (d : Char)
    (rest : List Char) (hd : '0' ≤ d ∧ d ≤ '9') :
    applyToken ('R' :: d :: rest) c =
      Except.ok (rotate_row ((d.toNat : Int) - 48) c) ∧
    applyToken ('C' :: d :: rest) c =
      Except.ok (rotate_column ((d.toNat : Int) - 48) c) ∧
    applyToken ('L' :: d :: rest) c =
      Except.ok (rotate_level ((d.toNat : Int) - 48) c) := by
  refine ⟨?_, ?_, ?_⟩ <;>
    · simp only [applyToken]
      rw [if_pos trivial, pyIntChar_ascii d hd]
      rfl

/-- Witness for `c6_second_char_is_param` on the token `R59` (and `C59`,
`L59`): the parameter is `5`, the trailing `9` is ignored. -/
theorem c6_second_char_is_param_witness :
    applyToken ['R', '5', '9'] (init_arange 3) =
      Except.ok (rotate_row 5 (init_arange 3)) ∧
    applyToken ['C', '5', '9'] (init_arange 3) =
      Except.ok (rotate_column 5 (init_arange 3)) ∧
    applyToken ['L', '5', '9'] (init_arange 3) =
      Except.ok (rotate_level 5 (init_arange 3)) :=
  c6_second_char_is_param (init_arange 3) '5' ['9'] (by decide)

/-- Claim C7: on the size-3 cube labelled `0..53` in scan order
Top, Left, Front, Right, Back, Bottom, the key `R1` raises no error, moves the
bottom row of Left (`B`) into Front (`C`), Front's into Right (`D`), Right's
into Back (`E`), Back's into Left, turns Bottom (`F`) by a quarter turn
(three counterclockwise quarter turns, i.e. 90° clockwise), and changes no
other cell. -/
theorem c7_golden_r1 :
    (encrypt ['R', '1'] (init_arange 3)).2 = none ∧
    (encrypt ['R', '1'] (init_arange 3)).1.C 2 = (init_arange 3).B 2 ∧
    (encrypt ['R', '1'] (init_arange 3)).1.D 2 = (init_arange 3).C 2 ∧
    (encrypt ['R', '1'] (init_arange 3)).1.E 2 = (init_arange 3).D 2 ∧
    (encrypt ['R', '1'] (init_arange 3)).1.B 2 = (init_arange 3).E 2 ∧
    (encrypt ['R', '1'] (init_arange 3)).1.F = rot90Iter 3 (init_arange 3).F ∧
    (encrypt ['R', '1'] (init_arange 3)).1.A = (init_arange 3).A ∧
    (encrypt ['R', '1'] (init_arange 3)).1.B 0 = (init_arange 3).B 0 ∧
    (encrypt ['R', '1'] (init_arange 3)).1.B 1 = (init_arange 3).B 1 ∧
    (encrypt ['R', '1'] (init_arange 3)).1.C 0 = (init_arange 3).C 0 ∧
    (encrypt ['R', '1'] (init_arange 3)).1.C 1 = (init_arange 3).C 1 ∧
    (encrypt ['R', '1'] (init_arange 3)).1.D 0 = (init_arange 3).D 0 ∧
    (encrypt ['R', '1'] (init_arange 3)).1.D 1 = (init_arange 3).D 1 ∧
    (encrypt ['R', '1'] (init_arange 3)).1.E 0 = (init_arange 3).E 0 ∧
    (encrypt ['R', '1'] (init_arange 3)).1.E 1 = (init_arange 3).E 1 := by
  decide

/-- Claim C8, counterexample: for `N = 5` the labels are not stored exactly —
the cell at scan index `128` (face `F`, row 0, column 3) stores `-128`, not
`128`, because of the signed 8-bit cell type. -/
theorem c8_int8_wraps :
    (init_arange 5).F 0 3 = -128 ∧ (init_arange 5).F 0 3 ≠ 128 := by
  constructor <;> decide

/-- Claim C8, amended: construction plus `init_arange` stores in each cell
the 8-bit wrap of its scan index (faces `A,B,C,D,E,F`, row-major); whenever
`6N² ≤ 128` (so for `N ≤ 4`, in particular the canonical `N = 3`) the stored
label equals the scan index `k·N² + y·N + x` exactly and the `6N²` labels are
pairwise distinct; for larger `N` the `int8` cast wraps. -/
theorem c8_arange_labels (n : Nat) (h : 6 * n ^ 2 ≤ 128) :
    (∀ (k : Fin 6) (y x : Fin n), cellAt (init_arange n) k y x =
      ((k.val * n ^ 2 + y.val * n + x.val : Nat) : Int)) ∧
    (∀ (k k' : Fin 6) (y y' x x' : Fin n),
      cellAt (init_arange n) k y x = cellAt (init_arange n) k' y' x' →
      k = k' ∧ y = y' ∧ x = x') := by
  have key : ∀ (k : Fin 6) (y x : Fin n), cellAt (init_arange n) k y x =
      ((k.val * n ^ 2 + y.val * n + x.val : Nat) : Int) := by
    intro k y x
    fin_cases k <;>
      · simp only [cellAt, init_arange]
        rw [toInt8_of_lt _ (scan_lt _ _ _ _ (by norm_num) y.isLt x.isLt h)]
  refine ⟨key, fun k k' y y' x x' hcell => ?_⟩
  rw [key k y x, key k' y' x'] at hcell
  obtain ⟨e1, e2, e3⟩ := scan_inj _ _ _ _ _ _ _ y.isLt x.isLt y'.isLt x'.isLt
    (Nat.cast_inj.mp hcell)
  exact ⟨Fin.ext e1, Fin.ext e2, Fin.ext e3⟩

/-- Witness for `c8_arange_labels` at `N = 3`: the first cell of face `B`
holds the scan index `9`, and equal cells imply equal positions. -/
theorem c8_arange_labels_witness :
    cellAt (init_arange 3) 1 0 0 = ((1 * 3 ^ 2 + 0 * 3 + 0 : Nat) : Int) :=
  (c8_arange_labels 3 (by norm_num)).1 1 0 0

/-- Claim C9, counterexample: the token `R1x` has letter `R` and a remainder
`1x` that is not a well-formed numeric literal, yet key application raises no
error at all — it parses only the character at index 1 and applies
`rotate_row 1`. -/
theorem c9_malformed_remainder_no_error :
    (encrypt ['R', '1', 'x'] (init_arange 3)).2 = none ∧
    (encrypt ['R', '1', 'x'] (init_arange 3)).1 = rotate_row 1 (init_arange 3) ∧
    (encrypt ['R', '1', 'x'] (init_arange 3)).1 ≠ init_arange 3 := by
  refine ⟨?_, ?_, ?_⟩ <;> decide

/-- Claim C9, amended: key application fails only when an `R`/`C`/`L` token
has no character at index 1 (`IndexError`) or a character that is not a
Unicode decimal digit there (`ValueError` naming that character, not the
token's position); a decimal digit at index 1 — ASCII or not — always parses
to its decimal value and applies the move, with everything beyond index 1
ignored; the first such exception aborts the run with no move of the
offending token applied, while the moves of all earlier tokens remain
applied. -/
theorem c9_first_exception_aborts (c : Cube (N + 1)) :
    (∀ ch, (ch = 'R' ∨ ch = 'C' ∨ ch = 'L') →
      applyToken [ch] c = Except.error PyErr.indexError) ∧
    (∀ ch d rest, (ch = 'R' ∨ ch = 'C' ∨ ch = 'L') → pyDigit d = none →
      applyToken (ch :: d :: rest) c = Except.error (PyErr.valueError [d])) ∧
    (∀ d rest (v : Nat), pyDigit d = some v →
      applyToken ('R' :: d :: rest) c = Except.ok (rotate_row (v : Int) c) ∧
      applyToken ('C' :: d :: rest) c = Except.ok (rotate_column (v : Int) c) ∧
      applyToken ('L' :: d :: rest) c = Except.ok (rotate_level (v : Int) c)) ∧
    (∀ (ts ts' : List (List Char)) (t : List Char) (c1 : Cube (N + 1)) (e : PyErr),
      encryptTokens ts c = (c1, none) → applyToken t c1 = Except.error e →
      encryptTokens (ts ++ t :: ts') c = (c1, some e)) := by
  refine ⟨fun ch hch => ?_, fun ch d rest hch hd => ?_,
    fun d rest v hv => ?_, fun ts => ?_⟩
  · rcases hch with rfl | rfl | rfl <;> rfl
  · rcases hch with rfl | rfl | rfl <;>
      simp [applyToken, pyIntChar_of_none d hd, Except.map]
  · refine ⟨?_, ?_, ?_⟩ <;>
      simp [applyToken, pyIntChar_of_some d v hv, Except.map]
  · induction ts generalizing c with
    | nil =>
        intro ts' t c1 e h1 h2
        have hc : c = c1 := congrArg Prod.fst h1
        subst hc
        show encryptTokens (t :: ts') c = (c, some e)
        unfold encryptTokens
        rw [h2]
    | cons u us ih =>
        intro ts' t c1 e h1 h2
        rw [List.cons_append]
        cases hu : applyToken u c with
        | ok c2 =>
            simp only [encryptTokens, hu] at h1 ⊢
            exact ih c2 ts' t c1 e h1 h2
        | error e2 =>
            simp only [encryptTokens, hu] at h1
            exact absurd (congrArg Prod.snd h1) (by simp)

/-- Witness for `c9_first_exception_aborts`: a one-letter token, a non-digit
at index 1, a non-ASCII decimal digit (Arabic-Indic five) that parses and
applies its move, and abort-after-earlier-moves on the key `C1-Rx-L2`. -/
theorem c9_first_exception_aborts_witness :
    applyToken ['R'] (init_arange 3) = Except.error PyErr.indexError ∧
    applyToken ['R', 'x'] (init_arange 3) =
      Except.error (PyErr.valueError ['x']) ∧
    applyToken ['R', '٥'] (init_arange 3) =
      Except.ok (rotate_row 5 (init_arange 3)) ∧
    encryptTokens [['C', '1'], ['R', 'x'], ['L', '2']] (init_arange 3) =
      (rotate_column 1 (init_arange 3), some (PyErr.valueError ['x'])) :=
  ⟨(c9_first_exception_aborts (init_arange 3)).1 'R' (Or.inl rfl),
    (c9_first_exception_aborts (init_arange 3)).2.1 'R' 'x' [] (Or.inl rfl)
      (by decide),
    ((c9_first_exception_aborts (init_arange 3)).2.2.1 '٥' [] 5 (by decide)).1,
    (c9_first_exception_aborts (init_arange 3)).2.2.2 [['C', '1']] [['L', '2']]
      ['R', 'x'] (rotate_column 1 (init_arange 3)) (PyErr.valueError ['x'])
      (by decide) (by decide)⟩

end RubiksCube
